/-
Verification of the UniMe program-matching engine.

The definitions below are a shallow embedding of the scoring and ranking
engine found in `backend/match_me.py` and `backend/api.py`:

  * Python floats are modelled as rationals (`ℚ`); all arithmetic in the
    engine is exact decimal arithmetic, so rationals are a faithful model.
  * Python dictionaries holding optional keys are modelled as structures
    with `Option` fields; `d['k']` (which may raise `KeyError`) is
    modelled by `getKey`, returning in the `Except Err` monad, while
    `d.get('k', default)` is modelled by `Option.getD`.
  * Python sets of strings are modelled as `Finset String`; set
    comprehensions over lists become `(l.map f).toFinset`.
  * Python `float` division by zero raises `ZeroDivisionError`; the one
    place the engine can divide by a user-controlled zero
    (`total = .../W_TOTAL` in `api.py`) is modelled with an explicit
    `Err.zeroDiv` check.  All other divisions are guarded by the source
    (`max(_, 1)`, emptiness tests, sums of positive literals), so plain
    rational division is used there.
  * `list.sort(key=..., reverse=True)` is modelled by `pySortDesc`, a
    stable descending sort by a rational key.  The stable descending sort
    is a uniquely determined permutation of its input, so CPython's stable
    sort and this one compute the same function.
-/
import Mathlib

set_option maxHeartbeats 1000000

attribute [local semireducible] Rat.add Rat.mul Rat.inv Rat.sub Rat.ofScientific

namespace UniMe

/-! ### Python string primitives -/

/-- Model of Python's `needle in hay` prefix step: does `needle` occur at
the head of `hay`?  (The empty needle is a prefix of everything, matching
Python's convention that `"" in s` is `True`.) -/
def charsStartWith : List Char → List Char → Bool
  | [], _ => true
  | _ :: _, [] => false
  | a :: as, b :: bs => a = b && charsStartWith as bs

/-- Model of Python's substring containment operator `needle in hay`
on the character lists of the two strings. -/
def charsContain (needle : List Char) : List Char → Bool
  | [] => charsStartWith needle []
  | c :: t => charsStartWith needle (c :: t) || charsContain needle t

/-- Python `needle in hay` for strings (substring containment). -/
def pySubstr (needle hay : String) : Bool :=
  charsContain needle.toList hay.toList

/-- Python `str.capitalize()`: upper-case the first character and
lower-case the rest. -/
def pyCapitalize (s : String) : String :=
  match s.toList with
  | [] => ""
  | c :: t => String.mk (c.toUpper :: t.map Char.toLower)

/-- Python `str.lower()`, character by character (the engine only handles
ASCII tags). -/
def strLower (s : String) : String :=
  String.mk (s.data.map Char.toLower)

/-- Python `str.replace(pat, rep)` for one-character patterns and
replacements; the engine only replaces the single separator characters
`-`, `/` and `_` by a space. -/
def pyReplaceChar (pat rep : Char) (s : String) : String :=
  String.mk (s.data.map (fun c => if c = pat then rep else c))

/-- Python `str.strip()`: drop leading and trailing whitespace. -/
def pyStrip (s : String) : String :=
  String.mk (((s.data.dropWhile Char.isWhitespace).reverse.dropWhile
    Char.isWhitespace).reverse)

/-- Python `list.index(x)`: index of the first occurrence of `x`.
The engine only calls it after a membership guard, so the value returned
on a missing element (the length of the list) is never used. -/
def listIndex [DecidableEq α] (x : α) : List α → Nat
  | [] => 0
  | a :: t => if a = x then 0 else listIndex x t + 1

/-- Python slicing `l[:k]` for an arbitrary integer `k`: a non-negative
`k` keeps the first `k` elements; a negative `k` drops the last `-k`. -/
def pySlice (l : List α) (k : Int) : List α :=
  if 0 ≤ k then l.take k.toNat else l.take (l.length - (-k).toNat)

/-- First-match lookup in an association list (Python `dict[key]` /
`dict.get(key)` on a literal dict, whose keys are unique). -/
def alistFind (k : String) : List (String × α) → Option α
  | [] => none
  | (a, v) :: t => if a = k then some v else alistFind k t

/-- Stable insertion step for a descending sort by a rational key: the
new element goes in front of the first element whose key is not larger
(so an earlier-listed element precedes later ones with an equal key). -/
def insertByDesc (key : α → ℚ) (x : α) : List α → List α
  | [] => [x]
  | y :: ys => if key y ≤ key x then x :: y :: ys else y :: insertByDesc key x ys

/-- Model of Python's stable `list.sort(key=..., reverse=True)`: the
stable descending sort by a key is a uniquely determined permutation
(non-increasing keys, original relative order on equal keys), so CPython's
stable sort and this stable insertion sort compute the same function. -/
def pySortDesc (key : α → ℚ) : List α → List α
  | [] => []
  | x :: xs => insertByDesc key x (pySortDesc key xs)

/-! ### Source: `match_me.py`, `normalize_string` (lines 201-205) -/

/-- Source translation of `normalize_string`: lower-case, replace the
separators `-`, `/`, `_` by spaces, and trim surrounding whitespace.
Python's `if not s: return ""` branch fires exactly on the empty string. -/
def normalize_string (s : String) : String :=
  if s = "" then ""
  else pyStrip (pyReplaceChar '_' ' ' (pyReplaceChar '/' ' '
    (pyReplaceChar '-' ' ' (strLower s))))

/-! ### Source: `match_me.py`, similarity primitives (lines 327-357) -/

/-- Source translation of `calculate_trait_score_with_confidence`
(match_me.py lines 327-340): base similarity scaled by a confidence
weight that grows with the distance of the user's answer from neutral. -/
def calculate_trait_score_with_confidence (user_val prog_val : ℚ) : ℚ :=
  let similarity := 1 - |prog_val - user_val| / 4
  let importance := |user_val - 3| / 2
  let confidence_weight := 0.6 + importance * 0.4
  similarity * confidence_weight

/-- Source translation of `score_categorical_distance` (match_me.py
lines 343-357): distance-based similarity over an ordered category list,
returning 0.5 when either value is unknown. -/
def score_categorical_distance (user_pref prog_val : String)
    (order_list : List String) : ℚ :=
  if user_pref ∉ order_list ∨ prog_val ∉ order_list then 0.5
  else
    let user_idx := listIndex user_pref order_list
    let prog_idx := listIndex prog_val order_list
    let max_distance := order_list.length - 1
    if max_distance = 0 then 1.0
    else
      let distance : ℚ := |(user_idx : ℚ) - (prog_idx : ℚ)|
      1.0 - (distance / (max_distance : ℚ)) * 0.7

/-! ### Source: `match_me.py`, keyword tables (lines 36-198)

The tables are modelled as association lists in the exact literal order of
the Python dict literals (CPython dicts iterate in insertion order, and the
engine's first-match/scan semantics depend on that order). -/

/-- Source translation of `INTEREST_MAPPINGS` (match_me.py lines 36-129). -/
def INTEREST_MAPPINGS : List (String × String) := [
  ("mechanical engineering", "Engineering"),
  ("civil engineering", "Engineering"),
  ("electrical engineering", "Engineering"),
  ("robotics", "Engineering"),
  ("mechatronics", "Engineering"),
  ("automotive", "Engineering"),
  ("aerospace", "Engineering"),
  ("structural design", "Engineering"),
  ("manufacturing", "Engineering"),
  ("product development", "Engineering"),
  ("engineering design", "Engineering"),
  ("programming", "CS/Math"),
  ("software development", "CS/Math"),
  ("algorithms", "CS/Math"),
  ("data science", "CS/Math"),
  ("mathematics", "CS/Math"),
  ("statistics", "CS/Math"),
  ("computer science", "CS/Math"),
  ("web development", "CS/Math"),
  ("artificial intelligence", "CS/Math"),
  ("machine learning", "CS/Math"),
  ("cryptography", "CS/Math"),
  ("cybersecurity", "CS/Math"),
  ("computational", "CS/Math"),
  ("finance", "Business"),
  ("marketing", "Business"),
  ("entrepreneurship", "Business"),
  ("economics", "Business"),
  ("accounting", "Business"),
  ("management", "Business"),
  ("business", "Business"),
  ("consulting", "Business"),
  ("human resources", "Business"),
  ("sales", "Business"),
  ("investment", "Business"),
  ("stock market", "Business"),
  ("taxation", "Business"),
  ("audit", "Business"),
  ("literature", "Arts/Humanities"),
  ("philosophy", "Arts/Humanities"),
  ("history", "Arts/Humanities"),
  ("languages", "Arts/Humanities"),
  ("writing", "Arts/Humanities"),
  ("cultural studies", "Arts/Humanities"),
  ("art history", "Arts/Humanities"),
  ("music", "Arts/Humanities"),
  ("film", "Arts/Humanities"),
  ("theatre", "Arts/Humanities"),
  ("creative writing", "Arts/Humanities"),
  ("linguistics", "Arts/Humanities"),
  ("anthropology", "Arts/Humanities"),
  ("archaeology", "Arts/Humanities"),
  ("biology", "Sciences"),
  ("chemistry", "Sciences"),
  ("physics", "Sciences"),
  ("environmental science", "Sciences"),
  ("astronomy", "Sciences"),
  ("earth sciences", "Sciences"),
  ("geology", "Sciences"),
  ("biochemistry", "Sciences"),
  ("molecular biology", "Sciences"),
  ("genetics", "Sciences"),
  ("ecology", "Sciences"),
  ("marine biology", "Sciences"),
  ("forensic science", "Sciences"),
  ("medicine", "Health"),
  ("nursing", "Health"),
  ("kinesiology", "Health"),
  ("public health", "Health"),
  ("nutrition", "Health"),
  ("psychology", "Health"),
  ("healthcare", "Health"),
  ("anatomy", "Health"),
  ("physiology", "Health"),
  ("pharmacy", "Health"),
  ("biomedical", "Health"),
  ("dentistry", "Health"),
  ("therapy", "Health"),
  ("mental health", "Health"),
  ("psychiatry", "Health"),
  ("rehabilitation", "Health")]

/-- Source translation of `COURSE_MAPPINGS` (match_me.py lines 132-152). -/
def COURSE_MAPPINGS : List (String × String) := [
  ("calculus", "Math"),
  ("algebra", "Math"),
  ("statistics", "Math"),
  ("physics", "Physics"),
  ("biology", "Biology"),
  ("chemistry", "Chemistry"),
  ("computer programming", "Computer Science"),
  ("business studies", "Business"),
  ("economics", "Business"),
  ("english", "Language Arts"),
  ("literature", "Language Arts"),
  ("creative writing", "Language Arts"),
  ("history", "History"),
  ("geography", "Geography"),
  ("art", "Visual Arts"),
  ("visual arts", "Visual Arts"),
  ("design", "Visual Arts"),
  ("shop class", "Autoshop"),
  ("auto mechanics", "Autoshop")]

/-- Source translation of `PROGRAM_TYPE_WEIGHTS` (match_me.py lines 166-198). -/
def PROGRAM_TYPE_WEIGHTS : List (String × List (String × ℚ)) := [
  ("Engineering", [("math_enjoyment", 1.8), ("learning_style", 1.4),
                   ("coop_importance", 1.3), ("creativity_orientation", 1.0)]),
  ("CS/Math", [("math_enjoyment", 1.7), ("collaboration_preference", 1.2),
               ("coop_importance", 1.3)]),
  ("Business", [("collaboration_preference", 1.5), ("career_certainty", 1.3),
                ("coop_importance", 1.4)]),
  ("Arts/Humanities", [("creativity_orientation", 1.8), ("math_enjoyment", 0.7),
                       ("research_importance", 1.3)]),
  ("Sciences", [("research_importance", 1.6), ("math_enjoyment", 1.4),
                ("learning_style", 1.3)]),
  ("Health", [("collaboration_preference", 1.4), ("research_importance", 1.3),
              ("career_certainty", 1.2)])]

/-- Source translation of the `name_hints` table inside
`detect_program_type` (match_me.py lines 223-230). -/
def name_hints : List (String × List String) := [
  ("Engineering", ["engineering", "mechanical", "electrical", "civil", "chemical"]),
  ("CS/Math", ["computer", "software", "math", "data science", "computing"]),
  ("Business", ["business", "commerce", "management", "finance", "accounting", "marketing"]),
  ("Arts/Humanities", ["arts", "humanities", "english", "philosophy", "history", "music"]),
  ("Sciences", ["science", "biology", "chemistry", "physics", "environmental"]),
  ("Health", ["health", "nursing", "medicine", "kinesiology", "pharmacy"])]

/-! ### Data model

The catalog entities are JSON objects; missing keys are modelled by
`Option` fields.  `d['k']` access is `getKey` (can fail), `d.get('k', v)`
is `Option.getD`. -/

/-- The `academic` sub-object of a catalog entity. -/
structure AcademicRaw where
  interests : Option (List String)
  liked_hs_courses : Option (List String)
  alt_to_engineering : Option (List String)
  learning_style : Option ℚ
  first_year_specialization : Option ℚ
  coop_importance : Option ℚ
  research_importance : Option ℚ
  creativity_orientation : Option ℚ
  career_certainty : Option ℚ
  math_enjoyment : Option ℚ
  collaboration_preference : Option ℚ
deriving DecidableEq

/-- The `campus` sub-object of a catalog entity. -/
structure CampusRaw where
  class_size_bin : Option String
  setting : Option String
  housing_styles : Option (List String)
  campus_size : Option String
deriving DecidableEq

/-- The `social` sub-object of a catalog entity. -/
structure SocialRaw where
  night_scene : Option ℚ
  sports : Option (List String)
  clubs : Option (List String)
  cultural_event_freq : Option ℚ
deriving DecidableEq

/-- A catalog entity (one element of `program_profiles.json`). -/
structure Program where
  uni : Option String
  program : Option String
  academic : Option AcademicRaw
  campus : Option CampusRaw
  social : Option SocialRaw
deriving DecidableEq

/-- The two kinds of Python exception the engine can raise: a `KeyError`
from a hard dictionary access `d['k']`, and a `ZeroDivisionError`. -/
inductive Err where
  | keyError
  | zeroDiv
deriving DecidableEq

/-- Python hard dictionary access `d['k']`: raises `KeyError` when the key
is missing. -/
def getKey : Option α → Except Err α
  | some a => Except.ok a
  | none => Except.error Err.keyError

instance [DecidableEq ε] [DecidableEq α] : DecidableEq (Except ε α) := fun x y =>
  match x, y with
  | .ok a, .ok b =>
    if h : a = b then .isTrue (by rw [h])
    else .isFalse (fun hc => h (Except.ok.inj hc))
  | .ok _, .error _ => .isFalse (fun hc => Except.noConfusion hc)
  | .error _, .ok _ => .isFalse (fun hc => Except.noConfusion hc)
  | .error e, .error f =>
    if h : e = f then .isTrue (by rw [h])
    else .isFalse (fun hc => h (Except.error.inj hc))

/-- The `user_answers` dictionary consumed by the `match_me.py` engine.
Keys read with `user_answers['k']` are required fields; keys read with
`user_answers.get('k', default)` are `Option` fields. -/
structure MmAnswers where
  wa : ℚ
  wc : ℚ
  wso : ℚ
  W_TOTAL : ℚ
  AA : List String
  LS : ℤ
  SP : ℤ
  CO : ℤ
  UR : ℤ
  CR : ℤ
  CE : ℤ
  LC : List String
  ME : ℤ
  CP : ℤ
  ALT : List String
  CSB : String
  SET : Option String
  HS : Option (List String)
  CPS : Option String
  NS : ℤ
  SPT : Option (List String)
  CLB : Option (List String)
  CEV : ℤ
deriving DecidableEq

/-! ### Source: `match_me.py`, `detect_program_type` (lines 208-240) -/

/-- One counter update on the insertion-ordered `category_counts` dict:
add `n` to the entry of `c`, appending a fresh entry when absent
(CPython dicts preserve insertion order). -/
def bumpCount (c : String) (n : Nat) : List (String × Nat) → List (String × Nat)
  | [] => [(c, n)]
  | (a, m) :: t => if a = c then (a, m + n) :: t else (a, m) :: bumpCount c n t

/-- The first interest-table category whose keyword occurs in the
lower-cased interest tag (the inner `for`/`break` of
`detect_program_type`). -/
def firstKeywordCategory (interest_lower : String) : Option String :=
  (INTEREST_MAPPINGS.find? (fun kv => pySubstr kv.1 interest_lower)).map (fun kv => kv.2)

/-- One iteration of the interest-tag counting loop of
`detect_program_type`: one count for the category of the first matching
keyword, none when no keyword matches. -/
def interestCountStep (counts : List (String × Nat)) (interest : String) :
    List (String × Nat) :=
  match firstKeywordCategory (strLower interest) with
  | some category => bumpCount category 1 counts
  | none => counts

/-- The interest-tag counting loop of `detect_program_type`. -/
def interestCounts (interests : List String) : List (String × Nat) :=
  interests.foldl interestCountStep []

/-- One iteration of the inner name-hint loop of `detect_program_type`:
two counts for the category when its hint occurs in the program name. -/
def hintStep (program_name cat : String) (counts : List (String × Nat))
    (hint : String) : List (String × Nat) :=
  if pySubstr hint program_name then bumpCount cat 2 counts else counts

/-- One iteration of the outer name-hint loop (one category with its hint
list). -/
def hintEntryStep (program_name : String) (counts : List (String × Nat))
    (ch : String × List String) : List (String × Nat) :=
  ch.2.foldl (hintStep program_name ch.1) counts

/-- The name-hint loop of `detect_program_type`: two counts per hint that
occurs in the lower-cased program name. -/
def addNameHintCounts (program_name : String)
    (counts : List (String × Nat)) : List (String × Nat) :=
  name_hints.foldl (hintEntryStep program_name) counts

/-- One comparison step of Python's `max` over the dict keys: a strictly
greater value replaces the current best, so the first key attaining the
maximum is kept. -/
def maxStep (acc : Option (String × Nat)) (cn : String × Nat) :
    Option (String × Nat) :=
  match acc with
  | none => some cn
  | some best => if cn.2 > best.2 then some cn else acc

/-- Python's `max(d, key=d.get)` over an insertion-ordered dict: the first
key (in insertion order) attaining the maximal value; `none` on the empty
dict (the code's `if not category_counts: return None`). -/
def firstMaxEntry : List (String × Nat) → Option (String × Nat) :=
  List.foldl maxStep none

/-- Source translation of `detect_program_type` (match_me.py lines
208-240). -/
def detect_program_type (p : Program) : Option String :=
  let interests := match p.academic with
    | some ac => ac.interests.getD []
    | none => []
  let program_name := strLower (p.program.getD "")
  let category_counts := addNameHintCounts program_name (interestCounts interests)
  (firstMaxEntry category_counts).map (fun cn => cn.1)

/-! ### Source: `match_me.py`, enhanced interest/course scores (lines 243-324) -/

/-- The inner keyword scan of `enhanced_interest_score`: for a program
interest tag, the first table row whose keyword occurs in the normalized
tag *and* whose category is among the user interests (in normalized or in
original display form) yields the credited category string; rows whose
keyword matches but whose category the user did not select do not break
the scan. -/
def interestMapScan (interest_normalized : String) (userNorm : Finset String)
    (userRaw : List String) : List (String × String) → Option String
  | [] => none
  | (key_term, category) :: rest =>
    if pySubstr key_term interest_normalized then
      if normalize_string category ∈ userNorm then some (normalize_string category)
      else if category ∈ userRaw then some category
      else interestMapScan interest_normalized userNorm userRaw rest
    else interestMapScan interest_normalized userNorm userRaw rest

/-- One iteration of the `enhanced_interest_score` loop over the program
interest tags; the state is `(total_score, matched_categories)`.  A direct
normalized match adds 1.0 unconditionally; a first category match not yet
in `matched_categories` adds 0.75. -/
def interestStep (userNorm : Finset String) (userRaw : List String)
    (st : ℚ × Finset String) (interest : String) : ℚ × Finset String :=
  let interest_normalized := normalize_string interest
  if interest_normalized ∈ userNorm then
    (st.1 + 1, insert interest_normalized st.2)
  else
    match interestMapScan interest_normalized userNorm userRaw INTEREST_MAPPINGS with
    | some cred => if cred ∉ st.2 then (st.1 + 0.75, insert cred st.2) else st
    | none => st

/-- Source translation of `enhanced_interest_score` (match_me.py lines
243-290). -/
def enhanced_interest_score (user_interests program_interests : List String) : ℚ :=
  if user_interests = [] then 0
  else
    let user_interests_normalized := (user_interests.map normalize_string).toFinset
    let max_possible : ℚ := (user_interests.length : ℚ)
    let st := program_interests.foldl
      (interestStep user_interests_normalized user_interests) (0, ∅)
    if st.1 = 0 then 0
    else
      let base_score := min (st.1 / max_possible) 1.0
      let match_bonus := min ((st.2.card : ℚ) * 0.05) 0.15
      min (base_score + match_bonus) 1.0

/-- The inner keyword scan of `enhanced_course_score` (single combined
membership test, credits the normalized category string). -/
def courseMapScan (course_normalized : String) (userNorm : Finset String)
    (userRaw : List String) : List (String × String) → Option String
  | [] => none
  | (key_term, category) :: rest =>
    if pySubstr key_term course_normalized then
      if normalize_string category ∈ userNorm ∨ category ∈ userRaw then
        some (normalize_string category)
      else courseMapScan course_normalized userNorm userRaw rest
    else courseMapScan course_normalized userNorm userRaw rest

/-- One iteration of the `enhanced_course_score` loop over the program
course tags (state as in `interestStep`, partial credit 0.8). -/
def courseStep (userNorm : Finset String) (userRaw : List String)
    (st : ℚ × Finset String) (course : String) : ℚ × Finset String :=
  let course_normalized := normalize_string course
  if course_normalized ∈ userNorm then
    (st.1 + 1, insert course_normalized st.2)
  else
    match courseMapScan course_normalized userNorm userRaw COURSE_MAPPINGS with
    | some cred => if cred ∉ st.2 then (st.1 + 0.8, insert cred st.2) else st
    | none => st

/-- Source translation of `enhanced_course_score` (match_me.py lines
293-324). -/
def enhanced_course_score (user_courses program_courses : List String) : ℚ :=
  if user_courses = [] ∨ program_courses = [] then 0
  else
    let user_courses_normalized := (user_courses.map normalize_string).toFinset
    let st := program_courses.foldl
      (courseStep user_courses_normalized user_courses) (0, ∅)
    min (st.1 / ((max user_courses.length 1 : ℕ) : ℚ)) 1.0

/-! ### Source: `match_me.py`, the academic trait-weight machinery
(lines 380-416, duplicated at api.py lines 71-104) -/

/-- The eight numeric academic trait keys, in source order. -/
def academicKeys : List String :=
  ["learning_style", "first_year_specialization", "coop_importance",
   "research_importance", "creativity_orientation", "career_certainty",
   "math_enjoyment", "collaboration_preference"]

/-- The base trait weights dict (a function of the user's co-op, research
and creativity answers). -/
def baseWeight (CO UR CR : ℤ) (k : String) : ℚ :=
  if k = "learning_style" then 1.2
  else if k = "first_year_specialization" then 1.0
  else if k = "coop_importance" then (if CO ≥ 4 then 1.5 else 1.0)
  else if k = "research_importance" then (if UR ≥ 4 then 1.5 else 1.0)
  else if k = "creativity_orientation" then (if CR ≥ 4 then 1.2 else 1.0)
  else if k = "career_certainty" then 1.0
  else if k = "math_enjoyment" then 1.3
  else if k = "collaboration_preference" then 1.0
  else 1.0

/-- The program-type multiplier applied to a trait weight; keys not listed
for the detected type keep multiplier 1, as does an undetected type. -/
def typeMult (program_type : Option String) (k : String) : ℚ :=
  match program_type with
  | none => 1
  | some t =>
    match alistFind t PROGRAM_TYPE_WEIGHTS with
    | none => 1
    | some tw => (alistFind k tw).getD 1

/-- The effective weight of one trait after the program-type adjustment
loop (`weights[key] *= multiplier`). -/
def effWeight (CO UR CR : ℤ) (program_type : Option String) (k : String) : ℚ :=
  baseWeight CO UR CR k * typeMult program_type k

/-- The entity-side numeric trait value `p['academic'].get(k, 3)`. -/
def acadVal (ac : AcademicRaw) (k : String) : ℚ :=
  if k = "learning_style" then ac.learning_style.getD 3
  else if k = "first_year_specialization" then ac.first_year_specialization.getD 3
  else if k = "coop_importance" then ac.coop_importance.getD 3
  else if k = "research_importance" then ac.research_importance.getD 3
  else if k = "creativity_orientation" then ac.creativity_orientation.getD 3
  else if k = "career_certainty" then ac.career_certainty.getD 3
  else if k = "math_enjoyment" then ac.math_enjoyment.getD 3
  else if k = "collaboration_preference" then ac.collaboration_preference.getD 3
  else 3

/-! ### Source: `match_me.py`, facet scorers (lines 362-520) -/

/-- The user-side trait answer list `vals` of `score_academic`
(match_me.py line 383). -/
def mmUserVals (u : MmAnswers) : List ℤ :=
  [u.LS, u.SP, u.CO, u.UR, u.CR, u.CE, u.ME, u.CP]

/-- The body of `score_academic` (match_me.py lines 362-418) after the
two hard accesses `p['academic']` and `['interests']` have succeeded. -/
def mm_academic_core (p : Program) (ac : AcademicRaw) (prog_int : List String)
    (u : MmAnswers) : ℚ :=
  let i_score := enhanced_interest_score u.AA prog_int * 0.4
  let prog_lc := ac.liked_hs_courses.getD []
  let lc_score := enhanced_course_score u.LC prog_lc * 0.2
  let prog_alt := ((ac.alt_to_engineering.getD []).map normalize_string).toFinset
  let alt_score : ℚ :=
    if u.ALT ≠ [] then
      let user_alt_normalized := (u.ALT.map normalize_string).toFinset
      let matched_alts := prog_alt ∩ user_alt_normalized
      ((matched_alts.card : ℚ) / ((max u.ALT.length 1 : ℕ) : ℚ)) * 0.1
    else 0
  let program_type := detect_program_type p
  let total_weight := (academicKeys.map (effWeight u.CO u.UR u.CR program_type)).sum
  let num_scores := (academicKeys.zip (mmUserVals u)).map (fun ks =>
    calculate_trait_score_with_confidence (ks.2 : ℚ) (acadVal ac ks.1) *
      effWeight u.CO u.UR u.CR program_type ks.1)
  let num_score := num_scores.sum / total_weight * 0.3
  i_score + lc_score + num_score + alt_score

/-- Source translation of `score_academic` (match_me.py lines 362-418). -/
def mm_score_academic (p : Program) (u : MmAnswers) : Except Err ℚ := do
  let ac ← getKey p.academic
  let prog_int ← getKey ac.interests
  pure (mm_academic_core p ac prog_int u)

/-- The class-size order list (match_me.py line 425, api.py line 112). -/
def class_size_order : List String := ["< 60", "60-200", "200+"]

/-- The campus-setting order list (match_me.py line 438, api.py line 124). -/
def setting_order : List String := ["urban", "suburban", "small town", "rural"]

/-- The campus-size order list (match_me.py line 474, api.py line 158). -/
def campus_size_order : List String := ["Small", "Medium", "Large"]

/-- The setting sub-score of the campus scorer, shared verbatim by both
copies of `score_campus` once the two sides' setting strings are fixed. -/
def settingScore (user_setting prog_setting : String) : ℚ :=
  if user_setting = prog_setting then 1.0
  else
    let user_setting_mapped := pyReplaceChar '-' ' ' user_setting
    let prog_setting_mapped := pyReplaceChar '-' ' ' prog_setting
    if user_setting_mapped ∈ setting_order ∧ prog_setting_mapped ∈ setting_order then
      score_categorical_distance user_setting_mapped prog_setting_mapped setting_order
    else
      let urban_suburban : Finset String := {"urban", "suburban"}
      let rural_small : Finset String := {"small town", "rural", "small-town"}
      if user_setting ∈ urban_suburban ∧ prog_setting ∈ urban_suburban then 0.6
      else if user_setting ∈ rural_small ∧ prog_setting ∈ rural_small then 0.6
      else 0.2

/-- The body of `score_campus` (match_me.py lines 420-486) after the hard
access `p['campus']` has succeeded. -/
def mm_campus_core (base : CampusRaw) (u : MmAnswers) : ℚ :=
  let class_size_score :=
    score_categorical_distance u.CSB (base.class_size_bin.getD "60-200") class_size_order
  let user_setting := normalize_string (u.SET.getD "")
  let prog_setting := normalize_string (base.setting.getD "")
  let setting_score := settingScore user_setting prog_setting
  let hs_prog := ((base.housing_styles.getD []).map normalize_string).toFinset
  let user_hs := ((u.HS.getD []).map normalize_string).toFinset
  let housing_score : ℚ :=
    if hs_prog ≠ ∅ ∧ user_hs ≠ ∅ then
      ((user_hs ∩ hs_prog).card : ℚ) / (user_hs.card : ℚ)
    else if user_hs = ∅ then 0.5
    else 0.2
  let user_cps := u.CPS.getD "Medium"
  let prog_cps := base.campus_size.getD "Medium"
  let user_cps_normalized := if user_cps ≠ "" then pyCapitalize user_cps else "Medium"
  let prog_cps_normalized := if prog_cps ≠ "" then pyCapitalize prog_cps else "Medium"
  let campus_score :=
    score_categorical_distance user_cps_normalized prog_cps_normalized campus_size_order
  (class_size_score + setting_score + housing_score + campus_score) / 4

/-- Source translation of `score_campus` (match_me.py lines 420-486). -/
def mm_score_campus (p : Program) (u : MmAnswers) : Except Err ℚ := do
  let base ← getKey p.campus
  pure (mm_campus_core base u)

/-- The body of `score_social` (match_me.py lines 488-520) after the hard
access `p['social']` has succeeded. -/
def mm_social_core (base : SocialRaw) (u : MmAnswers) : ℚ :=
  let prog_ns := base.night_scene.getD 3
  let ns_score := calculate_trait_score_with_confidence (u.NS : ℚ) prog_ns
  let sp_prog := ((base.sports.getD []).map normalize_string).toFinset
  let user_spt := ((u.SPT.getD []).map normalize_string).toFinset
  let spt_score : ℚ :=
    if "none" ∈ user_spt ∨ user_spt = ∅ then 1.0
    else ((sp_prog ∩ user_spt).card : ℚ) / ((max user_spt.card 1 : ℕ) : ℚ)
  let cl_prog := ((base.clubs.getD []).map normalize_string).toFinset
  let user_clb := ((u.CLB.getD []).map normalize_string).toFinset
  let cl_score : ℚ :=
    if user_clb ≠ ∅ then ((cl_prog ∩ user_clb).card : ℚ) / (user_clb.card : ℚ)
    else 0.5
  let prog_cev := base.cultural_event_freq.getD 3
  let cev_score := calculate_trait_score_with_confidence (u.CEV : ℚ) prog_cev
  (ns_score + spt_score + cl_score + cev_score) / 4

/-- Source translation of `score_social` (match_me.py lines 488-520). -/
def mm_score_social (p : Program) (u : MmAnswers) : Except Err ℚ := do
  let base ← getKey p.social
  pure (mm_social_core base u)

/-! ### Source: `match_me.py`, `compute_matches` (lines 682-695) -/

/-- One result tuple `(total, a, c, sos, p['uni'], p['program'])` of the
CLI engine's `compute_matches`. -/
structure MmResult where
  total : ℚ
  a : ℚ
  c : ℚ
  sos : ℚ
  uni : String
  program : String
deriving DecidableEq

/-- The body of the CLI scoring loop for one entity; any raised exception
is the `Except.error` case (the `except` clause of the source skips it). -/
def mm_score_entry (u : MmAnswers) (p : Program) : Except Err MmResult := do
  let a ← mm_score_academic p u
  let c ← mm_score_campus p u
  let sos ← mm_score_social p u
  let total := (u.wa * a + u.wc * c + u.wso * sos) /
    (if u.W_TOTAL = 0 then 1 else u.W_TOTAL)
  let uni ← getKey p.uni
  let program ← getKey p.program
  pure ⟨total, a, c, sos, uni, program⟩

/-- Source translation of the CLI `compute_matches` (match_me.py lines
682-695): score every entity, skipping those that raise, then sort
descending by total score.  The `(user_answers['W_TOTAL'] or 1)`
denominator falls back to 1 when the weight total is zero. -/
def mm_compute_matches (programs : List Program) (u : MmAnswers) : List MmResult :=
  let results := programs.filterMap (fun p => (mm_score_entry u p).toOption)
  pySortDesc (fun r => r.total) results

/-! ### Source: `api.py`, `compute_matches` (lines 30-216)

The web engine unpacks the request dict once (lines 32-55) and then runs
nested copies of the three facet scorers. -/

/-- The raw request dict consumed by `api.py`'s `compute_matches`; every
field is read with `answers.get(k, default)`, so all fields are
optional. -/
structure ApiAnswers where
  wa : Option ℚ
  wc : Option ℚ
  wso : Option ℚ
  AA : Option (List String)
  LS : Option ℤ
  SP : Option ℤ
  CO : Option ℤ
  UR : Option ℤ
  CR : Option ℤ
  CE : Option ℤ
  LC : Option (List String)
  ME : Option ℤ
  CP : Option ℤ
  ALT : Option (List String)
  CSB : Option String
  SET : Option String
  HS : Option (List String)
  CPS : Option String
  NS : Option ℤ
  SPT : Option (List String)
  CLB : Option (List String)
  CEV : Option ℤ
deriving DecidableEq

/-- The unpacked answer values captured by the nested scorers of
`api.py`'s `compute_matches` (lines 32-55). -/
structure ApiUnpacked where
  wa : ℚ
  wc : ℚ
  wso : ℚ
  W_TOTAL : ℚ
  AA : List String
  LS : ℤ
  SP : ℤ
  CO : ℤ
  UR : ℤ
  CR : ℤ
  CE : ℤ
  LC : List String
  ME : ℤ
  CP : ℤ
  ALT : List String
  CSB : String
  SET : String
  HS : Finset String
  CPS : String
  NS : ℤ
  SPT : Finset String
  CLB : Finset String
  CEV : ℤ

/-- Source translation of the unpacking prologue of `api.py`'s
`compute_matches` (lines 32-55). -/
def apiUnpack (answers : ApiAnswers) : ApiUnpacked :=
  let wa := answers.wa.getD 1
  let wc := answers.wc.getD 1
  let wso := answers.wso.getD 1
  { wa := wa, wc := wc, wso := wso, W_TOTAL := wa + wc + wso,
    AA := answers.AA.getD [],
    LS := answers.LS.getD 3, SP := answers.SP.getD 3, CO := answers.CO.getD 3,
    UR := answers.UR.getD 3, CR := answers.CR.getD 3, CE := answers.CE.getD 3,
    LC := answers.LC.getD [],
    ME := answers.ME.getD 3, CP := answers.CP.getD 3,
    ALT := answers.ALT.getD [],
    CSB := answers.CSB.getD "", SET := answers.SET.getD "",
    HS := (answers.HS.getD []).toFinset,
    CPS := answers.CPS.getD "",
    NS := answers.NS.getD 3,
    SPT := (answers.SPT.getD []).toFinset,
    CLB := (answers.CLB.getD []).toFinset,
    CEV := answers.CEV.getD 3 }

/-- The user-side trait answer list `vals` of the nested `score_academic`
(api.py line 74). -/
def apiUserVals (q : ApiUnpacked) : List ℤ :=
  [q.LS, q.SP, q.CO, q.UR, q.CR, q.CE, q.ME, q.CP]

/-- The body of the nested `score_academic` of `api.py` (lines 57-105)
after the hard accesses `p['academic']` and `['interests']`. -/
def api_academic_core (q : ApiUnpacked) (p : Program) (ac : AcademicRaw)
    (prog_int : List String) : ℚ :=
  let i_score := enhanced_interest_score q.AA prog_int * 0.4
  let prog_lc := ac.liked_hs_courses.getD []
  let lc_score := enhanced_course_score q.LC prog_lc * 0.2
  let prog_alt := ((ac.alt_to_engineering.getD []).map normalize_string).toFinset
  let alt_score : ℚ :=
    if q.ALT ≠ [] then
      let user_alt_normalized := (q.ALT.map normalize_string).toFinset
      let matched_alts := prog_alt ∩ user_alt_normalized
      ((matched_alts.card : ℚ) / ((max q.ALT.length 1 : ℕ) : ℚ)) * 0.1
    else 0
  let program_type := detect_program_type p
  let total_weight := (academicKeys.map (effWeight q.CO q.UR q.CR program_type)).sum
  let num_scores := (academicKeys.zip (apiUserVals q)).map (fun ks =>
    calculate_trait_score_with_confidence (ks.2 : ℚ) (acadVal ac ks.1) *
      effWeight q.CO q.UR q.CR program_type ks.1)
  let num_score := num_scores.sum / total_weight * 0.3
  i_score + lc_score + num_score + alt_score

/-- The nested `score_academic` of `api.py` (lines 57-105). -/
def api_score_academic (q : ApiUnpacked) (p : Program) : Except Err ℚ := do
  let ac ← getKey p.academic
  let prog_int ← getKey ac.interests
  pure (api_academic_core q p ac prog_int)

/-- The body of the nested `score_campus` of `api.py` (lines 107-168)
after the hard access `p['campus']`. -/
def api_campus_core (q : ApiUnpacked) (base : CampusRaw) : ℚ :=
  let class_size_score :=
    score_categorical_distance q.CSB (base.class_size_bin.getD "60-200") class_size_order
  let user_setting := if q.SET ≠ "" then normalize_string q.SET else ""
  let prog_setting := normalize_string (base.setting.getD "")
  let setting_score := settingScore user_setting prog_setting
  let hs_prog := ((base.housing_styles.getD []).map normalize_string).toFinset
  let user_hs := if q.HS ≠ ∅ then q.HS.image normalize_string else (∅ : Finset String)
  let housing_score : ℚ :=
    if hs_prog ≠ ∅ ∧ user_hs ≠ ∅ then
      ((user_hs ∩ hs_prog).card : ℚ) / (user_hs.card : ℚ)
    else if user_hs = ∅ then 0.5
    else 0.2
  let user_cps := if q.CPS ≠ "" then q.CPS else "Medium"
  let prog_cps := base.campus_size.getD "Medium"
  let user_cps_normalized := if user_cps ≠ "" then pyCapitalize user_cps else "Medium"
  let prog_cps_normalized := if prog_cps ≠ "" then pyCapitalize prog_cps else "Medium"
  let campus_score :=
    score_categorical_distance user_cps_normalized prog_cps_normalized campus_size_order
  (class_size_score + setting_score + housing_score + campus_score) / 4

/-- The nested `score_campus` of `api.py` (lines 107-168). -/
def api_score_campus (q : ApiUnpacked) (p : Program) : Except Err ℚ := do
  let base ← getKey p.campus
  pure (api_campus_core q base)

/-- The body of the nested `score_social` of `api.py` (lines 170-199)
after the hard access `p['social']`. -/
def api_social_core (q : ApiUnpacked) (base : SocialRaw) : ℚ :=
  let prog_ns := base.night_scene.getD 3
  let ns_score := calculate_trait_score_with_confidence (q.NS : ℚ) prog_ns
  let sp_prog := ((base.sports.getD []).map normalize_string).toFinset
  let user_spt := if q.SPT ≠ ∅ then q.SPT.image normalize_string else (∅ : Finset String)
  let spt_score : ℚ :=
    if "none" ∈ user_spt ∨ user_spt = ∅ then 1.0
    else ((sp_prog ∩ user_spt).card : ℚ) / ((max user_spt.card 1 : ℕ) : ℚ)
  let cl_prog := ((base.clubs.getD []).map normalize_string).toFinset
  let user_clb := if q.CLB ≠ ∅ then q.CLB.image normalize_string else (∅ : Finset String)
  let cl_score : ℚ :=
    if user_clb ≠ ∅ then ((cl_prog ∩ user_clb).card : ℚ) / (user_clb.card : ℚ)
    else 0.5
  let prog_cev := base.cultural_event_freq.getD 3
  let cev_score := calculate_trait_score_with_confidence (q.CEV : ℚ) prog_cev
  (ns_score + spt_score + cl_score + cev_score) / 4

/-- The nested `score_social` of `api.py` (lines 170-199). -/
def api_score_social (q : ApiUnpacked) (p : Program) : Except Err ℚ := do
  let base ← getKey p.social
  pure (api_social_core q base)

/-- One result record of `api.py`'s `compute_matches` (lines 207-214). -/
structure ApiResult where
  school : String
  program : String
  overall : ℚ
  academic : ℚ
  campus : ℚ
  social : ℚ
deriving DecidableEq

/-- The scoring loop of `api.py`'s `compute_matches` (lines 201-214).
There is no per-entity exception handler here: the first exception aborts
the whole loop, and a zero weight total raises `ZeroDivisionError` at the
`total = (...)/W_TOTAL` division. -/
def api_score_entries (q : ApiUnpacked) : List Program → Except Err (List ApiResult)
  | [] => pure []
  | p :: ps => do
    let a ← api_score_academic q p
    let c ← api_score_campus q p
    let s ← api_score_social q p
    let total ← if q.W_TOTAL = 0 then Except.error Err.zeroDiv
      else pure ((q.wa * a + q.wc * c + q.wso * s) / q.W_TOTAL)
    let school ← getKey p.uni
    let program ← getKey p.program
    let rest ← api_score_entries q ps
    pure (⟨school, program, total, a, c, s⟩ :: rest)

/-- Source translation of `api.py`'s `compute_matches` (lines 30-216):
unpack the answers, score every entity, sort descending by `overall`, and
return the Python slice `results[:num_results]`. -/
def api_compute_matches (programs : List Program) (answers : ApiAnswers)
    (num_results : Int) : Except Err (List ApiResult) := do
  let q := apiUnpack answers
  let results ← api_score_entries q programs
  pure (pySlice (pySortDesc (fun r => r.overall) results) num_results)

/-! ### Auxiliary definitions used by the claim statements -/

/-- Reading the insertion-ordered counts dict: `category_counts.get(c, 0)`. -/
def lookupCount : List (String × Nat) → String → Nat
  | [], _ => 0
  | (a, m) :: t, c => if a = c then m else lookupCount t c

/-- The `category_counts` dict built by `detect_program_type` for an
entity (the state just before the final `max`). -/
def detectCounts (p : Program) : List (String × Nat) :=
  let interests := match p.academic with
    | some ac => ac.interests.getD []
    | none => []
  let program_name := strLower (p.program.getD "")
  addNameHintCounts program_name (interestCounts interests)

/-- The number of counts a category receives from the name-hint table for
a given lower-cased program name: 2 per hint of that category occurring in
the name. -/
def hintTally (tbl : List (String × List String)) (cat program_name : String) : Nat :=
  (tbl.map (fun e =>
    if e.1 = cat then e.2.countP (fun h => pySubstr h program_name) else 0)).sum

/-- The per-category total count described by the claim: 1 per interest
tag whose first matching interest-table keyword maps to the category, plus
2 per name hint of the category occurring in the program name. -/
def claimedCount (p : Program) (cat : String) : Nat :=
  let interests := match p.academic with
    | some ac => ac.interests.getD []
    | none => []
  let program_name := strLower (p.program.getD "")
  interests.countP (fun t => decide (firstKeywordCategory (strLower t) = some cat)) +
    2 * hintTally name_hints cat program_name

/-- The fixed category order shared by the interest table's grouping and
the name-hint table. -/
def categoryTableOrder : List String :=
  ["Engineering", "CS/Math", "Business", "Arts/Humanities", "Sciences", "Health"]

/-- Follows the claim's words (not the source): return the category with
the highest total count, `none` when no category scored above zero, with
ties broken by table iteration order — the first category reaching the
maximum as the table is scanned. -/
def specDetectTableOrder (p : Program) : Option String :=
  let m := (categoryTableOrder.map (claimedCount p)).foldl max 0
  if m = 0 then none
  else categoryTableOrder.find? (fun c => decide (claimedCount p c = m))

/-- The user-side trait answers that feed `calculate_trait_score_with_confidence`,
all in the valid 1..5 band. -/
abbrev userTraitsInRange (u : MmAnswers) : Prop :=
  (1 ≤ u.LS ∧ u.LS ≤ 5) ∧ (1 ≤ u.SP ∧ u.SP ≤ 5) ∧ (1 ≤ u.CO ∧ u.CO ≤ 5) ∧
  (1 ≤ u.UR ∧ u.UR ≤ 5) ∧ (1 ≤ u.CR ∧ u.CR ≤ 5) ∧ (1 ≤ u.CE ∧ u.CE ≤ 5) ∧
  (1 ≤ u.ME ∧ u.ME ≤ 5) ∧ (1 ≤ u.CP ∧ u.CP ≤ 5) ∧
  (1 ≤ u.NS ∧ u.NS ≤ 5) ∧ (1 ≤ u.CEV ∧ u.CEV ≤ 5)

/-- Correspondence of the two calling conventions: the CLI dict's values
(after its own `.get` defaults) agree with the values the web engine
unpacks from the raw request dict. -/
abbrev answersCorrespond (m : MmAnswers) (d : ApiAnswers) : Prop :=
  m.AA = d.AA.getD [] ∧ m.LC = d.LC.getD [] ∧ m.ALT = d.ALT.getD [] ∧
  m.LS = d.LS.getD 3 ∧ m.SP = d.SP.getD 3 ∧ m.CO = d.CO.getD 3 ∧
  m.UR = d.UR.getD 3 ∧ m.CR = d.CR.getD 3 ∧ m.CE = d.CE.getD 3 ∧
  m.ME = d.ME.getD 3 ∧ m.CP = d.CP.getD 3 ∧
  m.NS = d.NS.getD 3 ∧ m.CEV = d.CEV.getD 3 ∧
  m.CSB = d.CSB.getD "" ∧ m.SET = d.SET ∧ m.HS = d.HS ∧
  m.CPS = d.CPS ∧ m.SPT = d.SPT ∧ m.CLB = d.CLB

/-! ### Concrete fixtures used by witnesses and counterexamples -/

/-- An academic profile with every key absent except an empty interest
list (all numeric traits default to the neutral 3). -/
def acadNeutral : AcademicRaw :=
  { interests := some [], liked_hs_courses := none, alt_to_engineering := none,
    learning_style := none, first_year_specialization := none,
    coop_importance := none, research_importance := none,
    creativity_orientation := none, career_certainty := none,
    math_enjoyment := none, collaboration_preference := none }

/-- A campus profile with every key absent. -/
def campusNeutral : CampusRaw :=
  { class_size_bin := none, setting := none, housing_styles := none,
    campus_size := none }

/-- A social profile with every key absent. -/
def socialNeutral : SocialRaw :=
  { night_scene := none, sports := none, clubs := none,
    cultural_event_freq := none }

/-- A well-formed catalog entity whose optional fields are all defaulted. -/
def progNeutral : Program :=
  { uni := some "U", program := some "X", academic := some acadNeutral,
    campus := some campusNeutral, social := some socialNeutral }

/-- A malformed catalog entity: the `academic` key is missing, so
`p['academic']` raises `KeyError` in both scorers. -/
def progMissingAcademic : Program :=
  { uni := some "B", program := some "Y", academic := none,
    campus := some campusNeutral, social := some socialNeutral }

/-- An entity whose interest tags hit the CS/Math table section before
the Engineering one, with no program name signal: both categories end up
with one count, and the first hit decides the dict insertion order. -/
def progC9 : Program :=
  { uni := none, program := none,
    academic := some { acadNeutral with interests := some ["programming", "robotics"] },
    campus := none, social := none }

/-- Neutral CLI answers: unit weights, empty tag sets, all numeric
answers 3. -/
def mmNeutralAnswers : MmAnswers :=
  { wa := 1, wc := 1, wso := 1, W_TOTAL := 3, AA := [], LS := 3, SP := 3,
    CO := 3, UR := 3, CR := 3, CE := 3, LC := [], ME := 3, CP := 3,
    ALT := [], CSB := "", SET := none, HS := none, CPS := none, NS := 3,
    SPT := none, CLB := none, CEV := 3 }

/-- Neutral CLI answers with all three facet weights zero. -/
def mmZeroWeights : MmAnswers :=
  { mmNeutralAnswers with wa := 0, wc := 0, wso := 0, W_TOTAL := 0 }

/-- A raw web request carrying only the three facet weights, all zero. -/
def apiZeroWeights : ApiAnswers :=
  { wa := some 0, wc := some 0, wso := some 0, AA := none, LS := none,
    SP := none, CO := none, UR := none, CR := none, CE := none, LC := none,
    ME := none, CP := none, ALT := none, CSB := none, SET := none, HS := none,
    CPS := none, NS := none, SPT := none, CLB := none, CEV := none }

/-- A raw web request carrying only the three facet weights, all one. -/
def apiUnitWeights : ApiAnswers :=
  { apiZeroWeights with wa := some 1, wc := some 1, wso := some 1 }

/-! ### Helper lemmas about the primitives -/

theorem listIndex_cons_self [DecidableEq α] (a : α) (l : List α) :
    listIndex a (a :: l) = 0 := by
  simp [listIndex]

theorem listIndex_lt_length [DecidableEq α] {x : α} {l : List α}
    (h : x ∈ l) : listIndex x l < l.length := by
  induction l with
  | nil => cases h
  | cons a t ih =>
    by_cases hax : a = x
    · simp [listIndex, hax]
    · have hxt : x ∈ t := by
        cases h with
        | head => exact absurd rfl hax
        | tail _ h => exact h
      simp only [listIndex, hax, if_false, List.length_cons]
      exact Nat.succ_lt_succ (ih hxt)

theorem listIndex_cons_ne [DecidableEq α] {a x : α} (t : List α) (h : a ≠ x) :
    listIndex x (a :: t) = listIndex x t + 1 := by
  simp [listIndex, h]

theorem listIndex_getLast_of_nodup [DecidableEq α] :
    ∀ (l : List α) (h : l ≠ []), l.Nodup →
      listIndex (l.getLast h) l = l.length - 1 := by
  intro l
  induction l with
  | nil => intro h; exact absurd rfl h
  | cons a t ih =>
    intro _ hnd
    cases t with
    | nil => simp [listIndex, List.getLast]
    | cons b u =>
      have hne : b :: u ≠ [] := by simp
      have hlast : (a :: b :: u).getLast (by simp) = (b :: u).getLast hne := by
        simp [List.getLast]
      have hmem : (b :: u).getLast hne ∈ b :: u := List.getLast_mem hne
      have hnd' : (b :: u).Nodup := (List.nodup_cons.mp hnd).2
      have hna : a ∉ b :: u := (List.nodup_cons.mp hnd).1
      have hax : a ≠ (b :: u).getLast hne := by
        intro hcontra
        exact hna (hcontra ▸ hmem)
      rw [hlast, listIndex_cons_ne _ hax, ih hne hnd']
      simp only [List.length_cons]
      omega


/-! ### Claim C2: trait similarity on equal arguments -/

/-- Counterexample for claim C2: an exactly matching *neutral* answer does
not get perfect similarity; `trait_sim(3,3)` is `0.6`, not `1.0`. -/
theorem trait_sim_diag_neutral_counterexample :
    calculate_trait_score_with_confidence 3 3 = 0.6 ∧
      calculate_trait_score_with_confidence 3 3 ≠ 1 := by
  constructor <;> norm_num [calculate_trait_score_with_confidence]

/-- Claim C2 (amended): for trait values `v` in `1..5`, the similarity of
an exact match equals the confidence weight `0.6 + 0.2*|v-3|`; it is `1.0`
exactly for the extreme answers `v = 1` and `v = 5`. -/
theorem trait_sim_diag (v : ℚ) (h1 : 1 ≤ v) (h5 : v ≤ 5) :
    calculate_trait_score_with_confidence v v = 0.6 + 0.2 * |v - 3| ∧
      (calculate_trait_score_with_confidence v v = 1 ↔ v = 1 ∨ v = 5) := by
  have hdiag : calculate_trait_score_with_confidence v v = 0.6 + 0.2 * |v - 3| := by
    simp only [calculate_trait_score_with_confidence]
    rw [sub_self, abs_zero]
    ring
  refine ⟨hdiag, ?_⟩
  rw [hdiag]
  constructor
  · intro h
    have habs : |v - 3| = 2 := by linarith
    rcases abs_eq (by norm_num : (0:ℚ) ≤ 2) |>.mp habs with h' | h'
    · right; linarith
    · left; linarith
  · rintro (rfl | rfl) <;> norm_num

/-- Witness for the amended claim C2 at the concrete value `v = 5`. -/
theorem trait_sim_diag_witness :
    calculate_trait_score_with_confidence 5 5 = 0.6 + 0.2 * |(5:ℚ) - 3| ∧
      (calculate_trait_score_with_confidence 5 5 = 1 ↔ (5:ℚ) = 1 ∨ (5:ℚ) = 5) :=
  trait_sim_diag 5 (by norm_num) (by norm_num)

/-! ### Claim C3: symmetry of the trait similarity -/

/-- Counterexample for claim C3: the trait similarity is not symmetric;
the confidence weight depends only on the *user* value, so
`trait_sim(1,3) = 0.5` while `trait_sim(3,1) = 0.3`. -/
theorem trait_sim_symm_counterexample :
    calculate_trait_score_with_confidence 1 3 = 0.5 ∧
      calculate_trait_score_with_confidence 3 1 = 0.3 ∧
      calculate_trait_score_with_confidence 1 3 ≠
        calculate_trait_score_with_confidence 3 1 := by
  refine ⟨?_, ?_, ?_⟩ <;> norm_num [calculate_trait_score_with_confidence, abs_of_nonneg, abs_of_nonpos]

/-- Claim C3 (amended): the trait similarity is symmetric on arguments
that are equidistant from the neutral answer `3` (in particular on equal
arguments); in general the confidence weight of the user-side argument
breaks symmetry. -/
theorem trait_sim_symm (a b : ℚ) (ha1 : 1 ≤ a) (ha5 : a ≤ 5)
    (hb1 : 1 ≤ b) (hb5 : b ≤ 5) (h : |a - 3| = |b - 3|) :
    calculate_trait_score_with_confidence a b =
      calculate_trait_score_with_confidence b a := by
  simp only [calculate_trait_score_with_confidence]
  rw [abs_sub_comm b a, h]

/-- Witness for the amended claim C3 at the concrete pair `(2, 4)`. -/
theorem trait_sim_symm_witness :
    calculate_trait_score_with_confidence 2 4 =
      calculate_trait_score_with_confidence 4 2 :=
  trait_sim_symm 2 4 (by norm_num) (by norm_num) (by norm_num) (by norm_num)
    (by norm_num [abs_of_nonpos, abs_of_nonneg])

/-! ### Claim C4: categorical distance at the diagonal and the endpoints -/

/-- Counterexample for claim C4: on an order list with duplicated
endpoints (length ≥ 2), the two endpoints score `1.0`, not the claimed
maximum-penalty floor `0.3`; the claim only holds for duplicate-free
order lists. -/
theorem cat_sim_endpoints_counterexample :
    2 ≤ (["a", "b", "a"] : List String).length ∧
      (["a", "b", "a"] : List String).head (by simp) = "a" ∧
      (["a", "b", "a"] : List String).getLast (by simp) = "a" ∧
      score_categorical_distance "a" "a" ["a", "b", "a"] = 1 ∧
      score_categorical_distance "a" "a" ["a", "b", "a"] ≠ 0.3 := by
  refine ⟨by norm_num, rfl, rfl, ?_, ?_⟩ <;>
    norm_num [score_categorical_distance, listIndex]

/-- Claim C4 (amended): `cat_sim(x, x, order)` is `1.0` for every member
`x` of any order list, and on a *duplicate-free* order list of length at
least 2 the two endpoints score exactly the floor `0.3`. -/
theorem cat_sim_diag_and_endpoints (order : List String) (x : String)
    (hne : order ≠ []) (hx : x ∈ order) (hnd : order.Nodup)
    (hlen : 2 ≤ order.length) :
    score_categorical_distance x x order = 1 ∧
      score_categorical_distance (order.head hne) (order.getLast hne) order
        = 0.3 := by
  constructor
  · simp only [score_categorical_distance]
    rw [if_neg (by simp [hx])]
    split <;> norm_num
  · have hhead : order.head hne ∈ order := List.head_mem hne
    have hlast : order.getLast hne ∈ order := List.getLast_mem hne
    simp only [score_categorical_distance]
    rw [if_neg (by simp [hhead, hlast])]
    have hlen0 : order.length - 1 ≠ 0 := by omega
    rw [if_neg hlen0]
    have hidxh : listIndex (order.head hne) order = 0 := by
      cases order with
      | nil => exact absurd rfl hne
      | cons a t => simp [List.head, listIndex]
    have hidxl : listIndex (order.getLast hne) order = order.length - 1 :=
      listIndex_getLast_of_nodup order hne hnd
    have hpos : (0 : ℚ) < ((order.length - 1 : ℕ) : ℚ) := by
      have h1 : 0 < order.length - 1 := by omega
      exact_mod_cast h1
    rw [hidxh, hidxl, Nat.cast_zero, zero_sub, abs_neg,
      abs_of_nonneg (le_of_lt hpos), div_self (ne_of_gt hpos)]
    norm_num

/-- Witness for the amended claim C4 on the engine's class-size order
list `["< 60", "60-200", "200+"]` with interior member `"60-200"`. -/
theorem cat_sim_diag_and_endpoints_witness :
    score_categorical_distance "60-200" "60-200" ["< 60", "60-200", "200+"] = 1 ∧
      score_categorical_distance
        ((["< 60", "60-200", "200+"] : List String).head (by simp))
        ((["< 60", "60-200", "200+"] : List String).getLast (by simp))
        ["< 60", "60-200", "200+"] = 0.3 :=
  cat_sim_diag_and_endpoints ["< 60", "60-200", "200+"] "60-200" (by simp)
    (by simp) (by decide) (by norm_num)

/-! ### Helper lemmas about the `Except` plumbing and the sort -/

theorem exceptBind_ok (a : α) (f : α → Except Err β) :
    (Except.ok a >>= f) = f a := rfl

theorem exceptBind_error (e : Err) (f : α → Except Err β) :
    ((Except.error e : Except Err α) >>= f) = Except.error e := rfl

theorem exceptPure (a : α) : (pure a : Except Err α) = Except.ok a := rfl

theorem getKey_some (a : α) : getKey (some a) = Except.ok a := rfl

theorem getKey_none : (getKey (none : Option α)) = Except.error Err.keyError := rfl

theorem mem_insertByDesc (key : α → ℚ) (x b : α) (l : List α) :
    b ∈ insertByDesc key x l ↔ b = x ∨ b ∈ l := by
  induction l with
  | nil => simp [insertByDesc]
  | cons y ys ih =>
    simp only [insertByDesc]
    split
    · simp [List.mem_cons]
    · simp only [List.mem_cons, ih]
      tauto

theorem length_insertByDesc (key : α → ℚ) (x : α) (l : List α) :
    (insertByDesc key x l).length = l.length + 1 := by
  induction l with
  | nil => rfl
  | cons y ys ih =>
    simp only [insertByDesc]
    split <;> simp [ih]

theorem length_pySortDesc (key : α → ℚ) (l : List α) :
    (pySortDesc key l).length = l.length := by
  induction l with
  | nil => rfl
  | cons x xs ih => simp [pySortDesc, length_insertByDesc, ih]

theorem sorted_insertByDesc (key : α → ℚ) (x : α) (l : List α)
    (h : l.Pairwise (fun a b => key b ≤ key a)) :
    (insertByDesc key x l).Pairwise (fun a b => key b ≤ key a) := by
  induction l with
  | nil => simp [insertByDesc]
  | cons y ys ih =>
    rcases List.pairwise_cons.mp h with ⟨hy, hys⟩
    simp only [insertByDesc]
    split
    · next hcond =>
      refine List.pairwise_cons.mpr ⟨?_, h⟩
      intro b hb
      rcases List.mem_cons.mp hb with rfl | hb'
      · exact hcond
      · exact le_trans (hy b hb') hcond
    · next hcond =>
      have hxy : key x ≤ key y := le_of_lt (lt_of_not_le hcond)
      refine List.pairwise_cons.mpr ⟨?_, ih hys⟩
      intro b hb
      rcases (mem_insertByDesc key x b ys).mp hb with rfl | hb'
      · exact hxy
      · exact hy b hb'

theorem sorted_pySortDesc (key : α → ℚ) (l : List α) :
    (pySortDesc key l).Pairwise (fun a b => key b ≤ key a) := by
  induction l with
  | nil => simp [pySortDesc]
  | cons x xs ih => exact sorted_insertByDesc key x _ ih

theorem pySlice_of_nonneg (l : List α) (k : Int) (hk : 0 ≤ k) :
    pySlice l k = l.take k.toNat := by
  simp [pySlice, hk]

theorem filterMap_filter_isSome (f : α → Option β) (l : List α) :
    (l.filter (fun a => (f a).isSome)).filterMap f = l.filterMap f := by
  induction l with
  | nil => rfl
  | cons a t ih =>
    cases h : f a with
    | none => simp [List.filter_cons, List.filterMap_cons, h, ih]
    | some b => simp [List.filter_cons, List.filterMap_cons, h, ih]

theorem api_score_entries_length (q : ApiUnpacked) :
    ∀ (ps : List Program) (res : List ApiResult),
      api_score_entries q ps = Except.ok res → res.length = ps.length := by
  intro ps
  induction ps with
  | nil =>
    intro res h
    simp only [api_score_entries, exceptPure] at h
    cases h
    rfl
  | cons p t ih =>
    intro res h
    simp only [api_score_entries] at h
    cases ha : api_score_academic q p with
    | error e => rw [ha, exceptBind_error] at h; cases h
    | ok a =>
      rw [ha, exceptBind_ok] at h
      cases hc : api_score_campus q p with
      | error e => rw [hc, exceptBind_error] at h; cases h
      | ok c =>
        rw [hc, exceptBind_ok] at h
        cases hs : api_score_social q p with
        | error e => rw [hs, exceptBind_error] at h; cases h
        | ok s =>
          rw [hs, exceptBind_ok] at h
          by_cases hw : q.W_TOTAL = 0
          · rw [if_pos hw, exceptBind_error] at h; cases h
          · rw [if_neg hw, exceptPure, exceptBind_ok] at h
            cases hu : p.uni with
            | none => rw [hu, getKey_none, exceptBind_error] at h; cases h
            | some uni =>
              rw [hu, getKey_some, exceptBind_ok] at h
              cases hpn : p.program with
              | none => rw [hpn, getKey_none, exceptBind_error] at h; cases h
              | some pn =>
                rw [hpn, getKey_some, exceptBind_ok] at h
                cases hrest : api_score_entries q t with
                | error e => rw [hrest, exceptBind_error] at h; cases h
                | ok rest =>
                  rw [hrest, exceptBind_ok, exceptPure] at h
                  cases h
                  simp [ih rest hrest]

/-! ### Claim C1: behaviour on an all-zero weight request -/

/-- Claim C1 (the code contradicts the documented design): on a zero
total weight the web engine (`api.py`) raises a raw `ZeroDivisionError`
rather than an explicit invalid-weights condition, and the CLI engine
(`match_me.py`) silently returns results with overall score 0 through its
`(W_TOTAL or 1)` fallback. -/
theorem zero_weights_crash_or_silent_zero :
    api_compute_matches [progNeutral] apiZeroWeights 10 = .error .zeroDiv ∧
      mm_compute_matches [progNeutral] mmZeroWeights =
        [{ total := 0, a := 9/50, c := 3/4, sos := 27/40,
           uni := "U", program := "X" }] :=
  ⟨by decide, by decide⟩

/-! ### Claim C8: effect of a per-entity scoring exception -/

/-- Counterexample for claim C8: in the web engine a single malformed
entity (missing `academic` key) aborts the whole ranking run with a
`KeyError`, even though the remaining entity scores fine on its own. -/
theorem single_bad_entity_aborts_api_run :
    api_compute_matches [progMissingAcademic, progNeutral] apiUnitWeights 10
        = .error .keyError ∧
      api_compute_matches [progNeutral] apiUnitWeights 10 =
        .ok [{ school := "U", program := "X", overall := 107/200,
               academic := 9/50, campus := 3/4, social := 27/40 }] :=
  ⟨by decide, by decide⟩

/-- Claim C8 (amended): only the CLI engine (`match_me.py`) skips a
catalog entity whose scoring raises and continues ranking the rest — its
output over any catalog equals its output over the sub-catalog of
successfully scoring entities; the web engine (`api.py`) has no
per-entity handler and aborts on the first failing entity. -/
theorem mm_run_skips_failing_entities (programs : List Program) (u : MmAnswers) :
    mm_compute_matches programs u =
      mm_compute_matches
        (programs.filter (fun p => (mm_score_entry u p).toOption.isSome)) u := by
  unfold mm_compute_matches
  rw [filterMap_filter_isSome]

/-! ### Claim C5: the ranking output is sorted and truncated -/

/-- Counterexample for claim C5: at the negative count `k = -1` Python's
slice `results[:-1]` drops the last element, so over a 2-entity catalog
the output length is 1, not `min(k, catalog size) = -1`. -/
theorem rank_negative_k_counterexample :
    (api_compute_matches [progNeutral, progNeutral] apiUnitWeights (-1)).toOption.map
        List.length = some 1 ∧
      ¬ ((1 : ℤ) = min (-1 : ℤ)
        (([progNeutral, progNeutral] : List Program).length : ℤ)) :=
  ⟨by decide, by decide⟩

/-- Claim C5 (amended): for every catalog, answer dict with non-negative
not-all-zero weights, and *non-negative* integer `k`, whenever the web
engine returns a result list it is sorted non-increasing by the overall
score and its length is `min(k, catalog size)`. -/
theorem rank_sorted_and_truncated (programs : List Program)
    (answers : ApiAnswers) (k : ℤ) (res : List ApiResult)
    (hwa : 0 ≤ (apiUnpack answers).wa) (hwc : 0 ≤ (apiUnpack answers).wc)
    (hwso : 0 ≤ (apiUnpack answers).wso)
    (hw : (apiUnpack answers).W_TOTAL ≠ 0)
    (hk : 0 ≤ k)
    (hok : api_compute_matches programs answers k = .ok res) :
    res.Pairwise (fun x y => y.overall ≤ x.overall) ∧
      (res.length : ℤ) = min k (programs.length : ℤ) := by
  simp only [api_compute_matches] at hok
  cases hres : api_score_entries (apiUnpack answers) programs with
  | error e =>
    rw [hres, exceptBind_error] at hok
    cases hok
  | ok results =>
    rw [hres, exceptBind_ok, exceptPure] at hok
    have hres2 : res = pySlice (pySortDesc (fun r => r.overall) results) k :=
      (Except.ok.inj hok).symm
    have hlen := api_score_entries_length _ _ _ hres
    constructor
    · rw [hres2, pySlice_of_nonneg _ _ hk]
      exact (sorted_pySortDesc _ _).sublist (List.take_sublist _ _)
    · rw [hres2, pySlice_of_nonneg _ _ hk]
      rw [List.length_take, length_pySortDesc, hlen]
      omega

/-- Witness for the amended claim C5 on the empty catalog with unit
weights and `k = 0`. -/
theorem rank_sorted_and_truncated_witness :
    ([] : List ApiResult).Pairwise (fun x y => y.overall ≤ x.overall) ∧
      ((([] : List ApiResult).length : ℤ) = min 0 (([] : List Program).length : ℤ)) :=
  rank_sorted_and_truncated [] apiUnitWeights 0 [] (by decide) (by decide)
    (by decide) (by decide) (by decide) (by decide)

/-! ### Bounds for the similarity primitives and sub-scores -/

theorem trait_sim_bounds (u v : ℚ) (hu1 : 1 ≤ u) (hu5 : u ≤ 5)
    (hv1 : 1 ≤ v) (hv5 : v ≤ 5) :
    0 ≤ calculate_trait_score_with_confidence u v ∧
      calculate_trait_score_with_confidence u v ≤ 1 := by
  simp only [calculate_trait_score_with_confidence]
  have habs1 : |v - u| ≤ 4 := abs_le.mpr ⟨by linarith, by linarith⟩
  have habs0 : 0 ≤ |v - u| := abs_nonneg _
  have himp1 : |u - 3| ≤ 2 := abs_le.mpr ⟨by linarith, by linarith⟩
  have himp0 : 0 ≤ |u - 3| := abs_nonneg _
  norm_num
  constructor
  · apply mul_nonneg (by linarith) (by linarith)
  · calc (1 - |v - u| / 4) * (0.6 + |u - 3| / 2 * 0.4)
        ≤ 1 * 1 := by
          apply mul_le_one₀ (by linarith) (by linarith) (by linarith)
    _ = 1 := by norm_num

theorem cat_sim_bounds (a b : String) (l : List String) :
    0 ≤ score_categorical_distance a b l ∧
      score_categorical_distance a b l ≤ 1 := by
  simp only [score_categorical_distance]
  split
  · norm_num
  · next hmem =>
    rw [not_or, not_not, not_not] at hmem
    obtain ⟨ha, hb⟩ := hmem
    split
    · norm_num
    · next hlen =>
      have hia := listIndex_lt_length ha
      have hib := listIndex_lt_length hb
      have hn2 : 2 ≤ l.length := by omega
      have hpos : (0:ℚ) < ((l.length - 1 : ℕ) : ℚ) := by
        exact_mod_cast (by omega : 0 < l.length - 1)
      have hua : (listIndex a l : ℚ) ≤ ((l.length - 1 : ℕ) : ℚ) := by
        exact_mod_cast (by omega : listIndex a l ≤ l.length - 1)
      have hub : (listIndex b l : ℚ) ≤ ((l.length - 1 : ℕ) : ℚ) := by
        exact_mod_cast (by omega : listIndex b l ≤ l.length - 1)
      have h0a : (0:ℚ) ≤ (listIndex a l : ℚ) := Nat.cast_nonneg _
      have h0b : (0:ℚ) ≤ (listIndex b l : ℚ) := Nat.cast_nonneg _
      have habs : |(listIndex a l : ℚ) - (listIndex b l : ℚ)| ≤
          ((l.length - 1 : ℕ) : ℚ) :=
        abs_le.mpr ⟨by linarith, by linarith⟩
      have hq0 : (0:ℚ) ≤ |(listIndex a l : ℚ) - (listIndex b l : ℚ)| /
          ((l.length - 1 : ℕ) : ℚ) := div_nonneg (abs_nonneg _) (le_of_lt hpos)
      have hq1 : |(listIndex a l : ℚ) - (listIndex b l : ℚ)| /
          ((l.length - 1 : ℕ) : ℚ) ≤ 1 := (div_le_one hpos).mpr habs
      norm_num
      constructor <;> linarith

theorem settingScore_bounds (a b : String) :
    0 ≤ settingScore a b ∧ settingScore a b ≤ 1 := by
  simp only [settingScore]
  split
  · norm_num
  · split
    · exact cat_sim_bounds _ _ _
    · split
      · norm_num
      · split <;> norm_num

theorem interestStep_fst_le (userNorm : Finset String) (userRaw : List String)
    (st : ℚ × Finset String) (interest : String) :
    st.1 ≤ (interestStep userNorm userRaw st interest).1 := by
  simp only [interestStep]
  split
  · simp
  · split
    · split
      · norm_num
      · exact le_refl _
    · exact le_refl _

theorem courseStep_fst_le (userNorm : Finset String) (userRaw : List String)
    (st : ℚ × Finset String) (course : String) :
    st.1 ≤ (courseStep userNorm userRaw st course).1 := by
  simp only [courseStep]
  split
  · simp
  · split
    · split
      · norm_num
      · exact le_refl _
    · exact le_refl _

theorem foldl_interestStep_fst_nonneg (userNorm : Finset String)
    (userRaw : List String) :
    ∀ (l : List String) (init : ℚ × Finset String), 0 ≤ init.1 →
      0 ≤ (l.foldl (interestStep userNorm userRaw) init).1 := by
  intro l
  induction l with
  | nil => intro init h; exact h
  | cons a t ih =>
    intro init h
    exact ih _ (le_trans h (interestStep_fst_le userNorm userRaw init a))

theorem foldl_courseStep_fst_nonneg (userNorm : Finset String)
    (userRaw : List String) :
    ∀ (l : List String) (init : ℚ × Finset String), 0 ≤ init.1 →
      0 ≤ (l.foldl (courseStep userNorm userRaw) init).1 := by
  intro l
  induction l with
  | nil => intro init h; exact h
  | cons a t ih =>
    intro init h
    exact ih _ (le_trans h (courseStep_fst_le userNorm userRaw init a))

theorem eis_bounds (ui pi : List String) :
    0 ≤ enhanced_interest_score ui pi ∧ enhanced_interest_score ui pi ≤ 1 := by
  simp only [enhanced_interest_score]
  split
  · norm_num
  · split
    · norm_num
    · have hst := foldl_interestStep_fst_nonneg
        ((ui.map normalize_string).toFinset) ui pi (0, ∅) (le_refl 0)
      have hmp : (0:ℚ) ≤ (ui.length : ℚ) := Nat.cast_nonneg _
      constructor
      · apply le_min _ (by norm_num)
        have hbase : (0:ℚ) ≤
            min ((pi.foldl (interestStep (ui.map normalize_string).toFinset ui)
              (0, ∅)).1 / (ui.length : ℚ)) 1.0 :=
          le_min (div_nonneg hst hmp) (by norm_num)
        have hbonus : (0:ℚ) ≤
            min (((pi.foldl (interestStep (ui.map normalize_string).toFinset ui)
              (0, ∅)).2.card : ℚ) * 0.05) 0.15 :=
          le_min (by positivity) (by norm_num)
        linarith
      · exact min_le_right _ _

theorem ecs_bounds (uc pc : List String) :
    0 ≤ enhanced_course_score uc pc ∧ enhanced_course_score uc pc ≤ 1 := by
  simp only [enhanced_course_score]
  split
  · norm_num
  · have hst := foldl_courseStep_fst_nonneg
      ((uc.map normalize_string).toFinset) uc pc (0, ∅) (le_refl 0)
    constructor
    · exact le_min (div_nonneg hst (Nat.cast_nonneg _)) (by norm_num)
    · exact min_le_right _ _

/-! ### Positivity of the effective trait weights -/

theorem alistFind_mem {α : Type} (k : String) (v : α) :
    ∀ (l : List (String × α)), alistFind k l = some v → (k, v) ∈ l := by
  intro l
  induction l with
  | nil => intro h; cases h
  | cons e t ih =>
    intro h
    obtain ⟨a, w⟩ := e
    simp only [alistFind] at h
    split at h
    · next heq =>
      cases h
      subst heq
      exact List.mem_cons_self _ _
    · exact List.mem_cons_of_mem _ (ih h)

theorem ptw_values_pos :
    ∀ e ∈ PROGRAM_TYPE_WEIGHTS, ∀ kv ∈ e.2, (0:ℚ) < kv.2 := by decide

theorem typeMult_pos (ot : Option String) (k : String) : 0 < typeMult ot k := by
  cases ot with
  | none => simp [typeMult]
  | some t =>
    simp only [typeMult]
    cases h : alistFind t PROGRAM_TYPE_WEIGHTS with
    | none => simp
    | some tw =>
      show 0 < (alistFind k tw).getD 1
      cases h2 : alistFind k tw with
      | none => simp [h2]
      | some v =>
        rw [Option.getD_some]
        exact ptw_values_pos (t, tw) (alistFind_mem t tw _ h) (k, v)
          (alistFind_mem k v _ h2)

theorem baseWeight_pos (CO UR CR : ℤ) (k : String) :
    0 < baseWeight CO UR CR k := by
  unfold baseWeight
  repeat' split
  all_goals norm_num

theorem effWeight_pos (CO UR CR : ℤ) (ot : Option String) (k : String) :
    0 < effWeight CO UR CR ot k :=
  mul_pos (baseWeight_pos CO UR CR k) (typeMult_pos ot k)

theorem weights_sum_nonneg (CO UR CR : ℤ) (pt : Option String) :
    ∀ keys : List String, 0 ≤ (keys.map (effWeight CO UR CR pt)).sum := by
  intro keys
  induction keys with
  | nil => simp
  | cons k ks ih =>
    simp only [List.map_cons, List.sum_cons]
    have := effWeight_pos CO UR CR pt k
    linarith

theorem weights_sum_pos_cons (CO UR CR : ℤ) (pt : Option String)
    (k : String) (ks : List String) :
    0 < ((k :: ks).map (effWeight CO UR CR pt)).sum := by
  simp only [List.map_cons, List.sum_cons]
  have h1 := effWeight_pos CO UR CR pt k
  have h2 := weights_sum_nonneg CO UR CR pt ks
  linarith

theorem num_score_sum_bounds (ac : AcademicRaw) (CO UR CR : ℤ)
    (pt : Option String) :
    ∀ (keys : List String) (vals : List ℤ),
      (∀ k ∈ keys, 1 ≤ acadVal ac k ∧ acadVal ac k ≤ 5) →
      (∀ v ∈ vals, (1:ℚ) ≤ (v:ℚ) ∧ (v:ℚ) ≤ 5) →
      0 ≤ ((keys.zip vals).map (fun ks =>
          calculate_trait_score_with_confidence (ks.2 : ℚ) (acadVal ac ks.1) *
            effWeight CO UR CR pt ks.1)).sum ∧
        ((keys.zip vals).map (fun ks =>
          calculate_trait_score_with_confidence (ks.2 : ℚ) (acadVal ac ks.1) *
            effWeight CO UR CR pt ks.1)).sum ≤
          (keys.map (effWeight CO UR CR pt)).sum := by
  intro keys
  induction keys with
  | nil => intro vals _ _; simp
  | cons k ks ih =>
    intro vals hv hu
    cases vals with
    | nil =>
      simp only [List.zip_nil_right, List.map_nil, List.sum_nil]
      exact ⟨le_refl 0, weights_sum_nonneg CO UR CR pt (k :: ks)⟩
    | cons v vs =>
      have hk := hv k (List.mem_cons_self k ks)
      have hvv := hu v (List.mem_cons_self v vs)
      have hts := trait_sim_bounds (v : ℚ) (acadVal ac k) hvv.1 hvv.2 hk.1 hk.2
      have hw := effWeight_pos CO UR CR pt k
      have hrest := ih vs (fun k2 h2 => hv k2 (List.mem_cons_of_mem _ h2))
        (fun v2 h2 => hu v2 (List.mem_cons_of_mem _ h2))
      simp only [List.zip_cons_cons, List.map_cons, List.sum_cons]
      constructor
      · have : 0 ≤ calculate_trait_score_with_confidence (v : ℚ) (acadVal ac k) *
            effWeight CO UR CR pt k := mul_nonneg hts.1 (le_of_lt hw)
        linarith [hrest.1]
      · have : calculate_trait_score_with_confidence (v : ℚ) (acadVal ac k) *
            effWeight CO UR CR pt k ≤ effWeight CO UR CR pt k :=
          mul_le_of_le_one_left (le_of_lt hw) hts.2
        linarith [hrest.2]

theorem add4_component_bounds {a b c d : ℚ}
    (ha : 0 ≤ a ∧ a ≤ 0.4) (hb : 0 ≤ b ∧ b ≤ 0.2)
    (hc : 0 ≤ c ∧ c ≤ 0.3) (hd : 0 ≤ d ∧ d ≤ 0.1) :
    0 ≤ a + b + c + d ∧ a + b + c + d ≤ 1 := by
  obtain ⟨ha0, ha1⟩ := ha
  obtain ⟨hb0, hb1⟩ := hb
  obtain ⟨hc0, hc1⟩ := hc
  obtain ⟨hd0, hd1⟩ := hd
  norm_num at ha1 hb1 hc1 hd1 ⊢
  constructor <;> linarith

theorem alt_score_bounds (pa : Finset String) (alt : List String) :
    0 ≤ (if alt ≠ [] then
        ((pa ∩ (alt.map normalize_string).toFinset).card : ℚ) /
          ((max alt.length 1 : ℕ) : ℚ) * 0.1
      else 0) ∧
      (if alt ≠ [] then
        ((pa ∩ (alt.map normalize_string).toFinset).card : ℚ) /
          ((max alt.length 1 : ℕ) : ℚ) * 0.1
      else 0) ≤ 0.1 := by
  split
  · have hcard : ((pa ∩ (alt.map normalize_string).toFinset).card : ℚ) ≤
        ((max alt.length 1 : ℕ) : ℚ) := by
      have h1 : (pa ∩ (alt.map normalize_string).toFinset).card ≤
          (alt.map normalize_string).toFinset.card :=
        Finset.card_le_card Finset.inter_subset_right
      have h2 : (alt.map normalize_string).toFinset.card ≤
          (alt.map normalize_string).length := List.toFinset_card_le _
      have h3 : (alt.map normalize_string).length ≤ max alt.length 1 := by
        rw [List.length_map]
        exact le_max_left _ 1
      exact_mod_cast le_trans h1 (le_trans h2 h3)
    have hden : (0:ℚ) < ((max alt.length 1 : ℕ) : ℚ) := by
      exact_mod_cast lt_of_lt_of_le Nat.zero_lt_one (le_max_right _ _)
    have hq0 : (0:ℚ) ≤ ((pa ∩ (alt.map normalize_string).toFinset).card : ℚ) /
        ((max alt.length 1 : ℕ) : ℚ) := div_nonneg (Nat.cast_nonneg _) hden.le
    have hq1 : ((pa ∩ (alt.map normalize_string).toFinset).card : ℚ) /
        ((max alt.length 1 : ℕ) : ℚ) ≤ 1 := (div_le_one hden).mpr hcard
    exact ⟨mul_nonneg hq0 (by norm_num), by
      calc _ ≤ (1:ℚ) * 0.1 := by
            apply mul_le_mul_of_nonneg_right hq1 (by norm_num)
        _ = 0.1 := one_mul _⟩
  · norm_num

theorem mm_academic_core_bounds (p : Program) (ac : AcademicRaw)
    (il : List String) (u : MmAnswers) (hu : userTraitsInRange u)
    (hac : ∀ k ∈ academicKeys, 1 ≤ acadVal ac k ∧ acadVal ac k ≤ 5) :
    0 ≤ mm_academic_core p ac il u ∧ mm_academic_core p ac il u ≤ 1 := by
  obtain ⟨⟨hLS1, hLS5⟩, ⟨hSP1, hSP5⟩, ⟨hCO1, hCO5⟩, ⟨hUR1, hUR5⟩,
    ⟨hCR1, hCR5⟩, ⟨hCE1, hCE5⟩, ⟨hME1, hME5⟩, ⟨hCP1, hCP5⟩, _, _⟩ := hu
  have huvals : ∀ v ∈ mmUserVals u, (1:ℚ) ≤ (v:ℚ) ∧ (v:ℚ) ≤ 5 := by
    intro v hv
    simp only [mmUserVals, List.mem_cons, List.not_mem_nil, or_false] at hv
    rcases hv with rfl | rfl | rfl | rfl | rfl | rfl | rfl | rfl <;>
      constructor <;> exact_mod_cast (by assumption)
  have hS := num_score_sum_bounds ac u.CO u.UR u.CR (detect_program_type p)
    academicKeys (mmUserVals u) hac huvals
  have hW : 0 < (academicKeys.map
      (effWeight u.CO u.UR u.CR (detect_program_type p))).sum := by
    rw [show academicKeys = "learning_style" ::
      ["first_year_specialization", "coop_importance", "research_importance",
       "creativity_orientation", "career_certainty", "math_enjoyment",
       "collaboration_preference"] from rfl]
    exact weights_sum_pos_cons _ _ _ _ _ _
  have hq0 : 0 ≤ ((academicKeys.zip (mmUserVals u)).map (fun ks =>
      calculate_trait_score_with_confidence (ks.2 : ℚ) (acadVal ac ks.1) *
        effWeight u.CO u.UR u.CR (detect_program_type p) ks.1)).sum /
      (academicKeys.map (effWeight u.CO u.UR u.CR (detect_program_type p))).sum :=
    div_nonneg hS.1 hW.le
  have hq1 : ((academicKeys.zip (mmUserVals u)).map (fun ks =>
      calculate_trait_score_with_confidence (ks.2 : ℚ) (acadVal ac ks.1) *
        effWeight u.CO u.UR u.CR (detect_program_type p) ks.1)).sum /
      (academicKeys.map (effWeight u.CO u.UR u.CR (detect_program_type p))).sum ≤ 1 :=
    (div_le_one hW).mpr hS.2
  have hi := eis_bounds u.AA il
  have hlc := ecs_bounds u.LC (ac.liked_hs_courses.getD [])
  have halt := alt_score_bounds
    (((ac.alt_to_engineering.getD []).map normalize_string).toFinset) u.ALT
  simp only [mm_academic_core]
  exact add4_component_bounds
    ⟨mul_nonneg hi.1 (by norm_num), by
      calc _ ≤ (1:ℚ) * 0.4 := mul_le_mul_of_nonneg_right hi.2 (by norm_num)
        _ = 0.4 := one_mul _⟩
    ⟨mul_nonneg hlc.1 (by norm_num), by
      calc _ ≤ (1:ℚ) * 0.2 := mul_le_mul_of_nonneg_right hlc.2 (by norm_num)
        _ = 0.2 := one_mul _⟩
    ⟨mul_nonneg hq0 (by norm_num), by
      calc _ ≤ (1:ℚ) * 0.3 := mul_le_mul_of_nonneg_right hq1 (by norm_num)
        _ = 0.3 := one_mul _⟩
    halt

theorem housing_score_bounds (hp uh : Finset String) :
    0 ≤ (if hp ≠ ∅ ∧ uh ≠ ∅ then ((uh ∩ hp).card : ℚ) / (uh.card : ℚ)
        else if uh = ∅ then 0.5 else 0.2) ∧
      (if hp ≠ ∅ ∧ uh ≠ ∅ then ((uh ∩ hp).card : ℚ) / (uh.card : ℚ)
        else if uh = ∅ then 0.5 else 0.2) ≤ 1 := by
  split
  · next hcond =>
    have hne : uh.Nonempty := Finset.nonempty_iff_ne_empty.mpr hcond.2
    have hpos : (0:ℚ) < (uh.card : ℚ) := by
      exact_mod_cast Finset.card_pos.mpr hne
    have hcard : ((uh ∩ hp).card : ℚ) ≤ (uh.card : ℚ) := by
      exact_mod_cast Finset.card_le_card Finset.inter_subset_left
    exact ⟨div_nonneg (Nat.cast_nonneg _) hpos.le, (div_le_one hpos).mpr hcard⟩
  · split <;> norm_num

theorem mm_campus_core_bounds (base : CampusRaw) (u : MmAnswers) :
    0 ≤ mm_campus_core base u ∧ mm_campus_core base u ≤ 1 := by
  have h1 := cat_sim_bounds u.CSB (base.class_size_bin.getD "60-200") class_size_order
  have h2 := settingScore_bounds (normalize_string (u.SET.getD ""))
    (normalize_string (base.setting.getD ""))
  have h3 := housing_score_bounds
    (((base.housing_styles.getD []).map normalize_string).toFinset)
    (((u.HS.getD []).map normalize_string).toFinset)
  have h4 := cat_sim_bounds
    (if u.CPS.getD "Medium" ≠ "" then pyCapitalize (u.CPS.getD "Medium") else "Medium")
    (if base.campus_size.getD "Medium" ≠ "" then
      pyCapitalize (base.campus_size.getD "Medium") else "Medium")
    campus_size_order
  simp only [mm_campus_core]
  constructor <;> [linarith [h1.1, h2.1, h3.1, h4.1]; linarith [h1.2, h2.2, h3.2, h4.2]]

theorem sports_score_bounds (sp usr : Finset String) :
    0 ≤ (if "none" ∈ usr ∨ usr = ∅ then (1.0:ℚ)
        else ((sp ∩ usr).card : ℚ) / ((max usr.card 1 : ℕ) : ℚ)) ∧
      (if "none" ∈ usr ∨ usr = ∅ then (1.0:ℚ)
        else ((sp ∩ usr).card : ℚ) / ((max usr.card 1 : ℕ) : ℚ)) ≤ 1 := by
  split
  · norm_num
  · have hden : (0:ℚ) < ((max usr.card 1 : ℕ) : ℚ) := by
      exact_mod_cast lt_of_lt_of_le Nat.zero_lt_one (le_max_right _ _)
    have hcard : ((sp ∩ usr).card : ℚ) ≤ ((max usr.card 1 : ℕ) : ℚ) := by
      exact_mod_cast le_trans (Finset.card_le_card Finset.inter_subset_right)
        (le_max_left _ 1)
    exact ⟨div_nonneg (Nat.cast_nonneg _) hden.le, (div_le_one hden).mpr hcard⟩

theorem clubs_score_bounds (cp usr : Finset String) :
    0 ≤ (if usr ≠ ∅ then ((cp ∩ usr).card : ℚ) / (usr.card : ℚ) else (0.5:ℚ)) ∧
      (if usr ≠ ∅ then ((cp ∩ usr).card : ℚ) / (usr.card : ℚ) else (0.5:ℚ)) ≤ 1 := by
  split
  · next hcond =>
    have hne : usr.Nonempty := Finset.nonempty_iff_ne_empty.mpr hcond
    have hpos : (0:ℚ) < (usr.card : ℚ) := by
      exact_mod_cast Finset.card_pos.mpr hne
    have hcard : ((cp ∩ usr).card : ℚ) ≤ (usr.card : ℚ) := by
      exact_mod_cast Finset.card_le_card Finset.inter_subset_right
    exact ⟨div_nonneg (Nat.cast_nonneg _) hpos.le, (div_le_one hpos).mpr hcard⟩
  · norm_num

theorem mm_social_core_bounds (base : SocialRaw) (u : MmAnswers)
    (hNSu : 1 ≤ u.NS ∧ u.NS ≤ 5) (hCEVu : 1 ≤ u.CEV ∧ u.CEV ≤ 5)
    (hns : 1 ≤ base.night_scene.getD 3 ∧ base.night_scene.getD 3 ≤ 5)
    (hcev : 1 ≤ base.cultural_event_freq.getD 3 ∧
      base.cultural_event_freq.getD 3 ≤ 5) :
    0 ≤ mm_social_core base u ∧ mm_social_core base u ≤ 1 := by
  have h1 := trait_sim_bounds (u.NS : ℚ) (base.night_scene.getD 3)
    (by exact_mod_cast hNSu.1) (by exact_mod_cast hNSu.2) hns.1 hns.2
  have h2 := sports_score_bounds
    (((base.sports.getD []).map normalize_string).toFinset)
    (((u.SPT.getD []).map normalize_string).toFinset)
  have h3 := clubs_score_bounds
    (((base.clubs.getD []).map normalize_string).toFinset)
    (((u.CLB.getD []).map normalize_string).toFinset)
  have h4 := trait_sim_bounds (u.CEV : ℚ) (base.cultural_event_freq.getD 3)
    (by exact_mod_cast hCEVu.1) (by exact_mod_cast hCEVu.2) hcev.1 hcev.2
  simp only [mm_social_core]
  constructor <;> [linarith [h1.1, h2.1, h3.1, h4.1]; linarith [h1.2, h2.2, h3.2, h4.2]]

/-! ### Claim C6: the three facet scorers stay in the unit interval -/

/-- Claim C6: for well-formed inputs — all user and entity trait values in
the 1..5 band, arbitrary tag sets — each facet score the CLI engine
computes lies in the closed interval `[0, 1]`. -/
theorem facet_scores_in_unit_interval (p : Program) (u : MmAnswers)
    (ac : AcademicRaw) (so : SocialRaw) (a c s : ℚ)
    (hu : userTraitsInRange u)
    (hpa : p.academic = some ac) (hps : p.social = some so)
    (hac : ∀ k ∈ academicKeys, 1 ≤ acadVal ac k ∧ acadVal ac k ≤ 5)
    (hns : 1 ≤ so.night_scene.getD 3 ∧ so.night_scene.getD 3 ≤ 5)
    (hcev : 1 ≤ so.cultural_event_freq.getD 3 ∧
      so.cultural_event_freq.getD 3 ≤ 5)
    (ha : mm_score_academic p u = .ok a)
    (hc : mm_score_campus p u = .ok c)
    (hs : mm_score_social p u = .ok s) :
    (0 ≤ a ∧ a ≤ 1) ∧ (0 ≤ c ∧ c ≤ 1) ∧ (0 ≤ s ∧ s ≤ 1) := by
  refine ⟨?_, ?_, ?_⟩
  · unfold mm_score_academic at ha
    rw [hpa, getKey_some, exceptBind_ok] at ha
    cases hil : ac.interests with
    | none => rw [hil, getKey_none, exceptBind_error] at ha; cases ha
    | some il =>
      rw [hil, getKey_some, exceptBind_ok, exceptPure] at ha
      cases ha
      exact mm_academic_core_bounds p ac il u hu hac
  · unfold mm_score_campus at hc
    cases hpc : p.campus with
    | none => rw [hpc, getKey_none, exceptBind_error] at hc; cases hc
    | some base =>
      rw [hpc, getKey_some, exceptBind_ok, exceptPure] at hc
      cases hc
      exact mm_campus_core_bounds base u
  · unfold mm_score_social at hs
    rw [hps, getKey_some, exceptBind_ok, exceptPure] at hs
    cases hs
    obtain ⟨_, _, _, _, _, _, _, _, hNSu, hCEVu⟩ := hu
    exact mm_social_core_bounds so u hNSu hCEVu hns hcev

/-- Witness for claim C6 at the neutral fixture entity and answers. -/
theorem facet_scores_in_unit_interval_witness :
    (0 ≤ (9/50 : ℚ) ∧ (9/50 : ℚ) ≤ 1) ∧ (0 ≤ (3/4 : ℚ) ∧ (3/4 : ℚ) ≤ 1) ∧
      (0 ≤ (27/40 : ℚ) ∧ (27/40 : ℚ) ≤ 1) :=
  facet_scores_in_unit_interval progNeutral mmNeutralAnswers acadNeutral
    socialNeutral (9/50) (3/4) (27/40) (by decide) (by decide) (by decide)
    (by decide) (by decide) (by decide) (by decide) (by decide) (by decide)

/-! ### Claim C7: scenario A, the all-neutral academic score -/

theorem eis_nil (pi : List String) : enhanced_interest_score [] pi = 0 := by
  simp [enhanced_interest_score]

theorem ecs_nil (pc : List String) : enhanced_course_score [] pc = 0 := by
  simp [enhanced_course_score]

/-- Claim C7: when the eight entity academic traits and the eight user
answers are all the neutral 3 and the user supplied no interest, course or
alternative tags, the academic facet score is exactly
`0.3 * 0.6 = 0.18 = 9/50`, for every entity (hence for every detected
program type and trait-weight configuration). -/
theorem scenario_A_academic_score (p : Program) (u : MmAnswers)
    (ac : AcademicRaw) (il : List String)
    (hpa : p.academic = some ac) (hil : ac.interests = some il)
    (hvals : ∀ k ∈ academicKeys, acadVal ac k = 3)
    (hLS : u.LS = 3) (hSP : u.SP = 3) (hCO : u.CO = 3) (hUR : u.UR = 3)
    (hCR : u.CR = 3) (hCE : u.CE = 3) (hME : u.ME = 3) (hCP : u.CP = 3)
    (hAA : u.AA = []) (hLC : u.LC = []) (hALT : u.ALT = []) :
    mm_score_academic p u = .ok (9/50) := by
  unfold mm_score_academic
  rw [hpa, getKey_some, exceptBind_ok, hil, getKey_some, exceptBind_ok, exceptPure]
  congr 1
  have hv1 := hvals "learning_style" (by decide)
  have hv2 := hvals "first_year_specialization" (by decide)
  have hv3 := hvals "coop_importance" (by decide)
  have hv4 := hvals "research_importance" (by decide)
  have hv5 := hvals "creativity_orientation" (by decide)
  have hv6 := hvals "career_certainty" (by decide)
  have hv7 := hvals "math_enjoyment" (by decide)
  have hv8 := hvals "collaboration_preference" (by decide)
  have hW : (academicKeys.map
      (effWeight u.CO u.UR u.CR (detect_program_type p))).sum ≠ 0 := by
    refine ne_of_gt ?_
    rw [show academicKeys = "learning_style" ::
      ["first_year_specialization", "coop_importance", "research_importance",
       "creativity_orientation", "career_certainty", "math_enjoyment",
       "collaboration_preference"] from rfl]
    exact weights_sum_pos_cons _ _ _ _ _ _
  have htss : calculate_trait_score_with_confidence ((3:ℤ) : ℚ) 3 = 3/5 := by
    norm_num [calculate_trait_score_with_confidence]
  have hsum : ((academicKeys.zip (mmUserVals u)).map (fun ks =>
      calculate_trait_score_with_confidence (ks.2 : ℚ) (acadVal ac ks.1) *
        effWeight u.CO u.UR u.CR (detect_program_type p) ks.1)).sum =
      3/5 * (academicKeys.map
        (effWeight u.CO u.UR u.CR (detect_program_type p))).sum := by
    simp only [academicKeys, mmUserVals, hLS, hSP, hCO, hUR, hCR, hCE, hME, hCP,
      List.zip_cons_cons, List.zip_nil_right, List.map_cons, List.map_nil,
      List.sum_cons, List.sum_nil]
    rw [hv1, hv2, hv3, hv4, hv5, hv6, hv7, hv8, htss]
    ring
  simp only [mm_academic_core]
  rw [hAA, hLC, hALT, eis_nil, ecs_nil, hsum, mul_div_assoc, div_self hW]
  norm_num

/-- Witness for claim C7 at the neutral fixture entity and answers. -/
theorem scenario_A_academic_score_witness :
    mm_score_academic progNeutral mmNeutralAnswers = .ok (9/50) :=
  scenario_A_academic_score progNeutral mmNeutralAnswers acadNeutral []
    (by decide) (by decide) (by decide) (by decide) (by decide) (by decide)
    (by decide) (by decide) (by decide) (by decide) (by decide) (by decide)
    (by decide) (by decide)

/-! ### Claim C9: characterisation of `detect_program_type` -/

theorem foldl_preserves {α β : Type} (P : β → Prop) (step : β → α → β)
    (hstep : ∀ b a, P b → P (step b a)) :
    ∀ (l : List α) (b : β), P b → P (l.foldl step b) := by
  intro l
  induction l with
  | nil => intro b h; exact h
  | cons a t ih => intro b h; exact ih _ (hstep b a h)

theorem lookupCount_bumpCount (c c' : String) (n : Nat) :
    ∀ l, lookupCount (bumpCount c n l) c' =
      lookupCount l c' + (if c' = c then n else 0) := by
  intro l
  induction l with
  | nil =>
    by_cases h : c = c'
    · subst h; simp [bumpCount, lookupCount]
    · simp [bumpCount, lookupCount, h, Ne.symm h]
  | cons e t ih =>
    obtain ⟨a, m⟩ := e
    by_cases hac : a = c
    · subst hac
      by_cases hac' : a = c'
      · subst hac'
        simp [bumpCount, lookupCount]
      · simp [bumpCount, lookupCount, hac', Ne.symm hac']
    · by_cases hac' : a = c'
      · subst hac'
        simp [bumpCount, lookupCount, hac]
      · simp [bumpCount, lookupCount, hac, hac', ih]

theorem lookupCount_interestCounts_aux (cat : String) :
    ∀ (l : List String) (init : List (String × Nat)),
      lookupCount (l.foldl interestCountStep init) cat =
        lookupCount init cat +
          l.countP (fun t => decide (firstKeywordCategory (strLower t) = some cat)) := by
  intro l
  induction l with
  | nil => intro init; simp
  | cons t ts ih =>
    intro init
    rw [List.foldl_cons, ih, List.countP_cons]
    cases h : firstKeywordCategory (strLower t) with
    | none =>
      simp only [interestCountStep, h]
      simp [h]
    | some c0 =>
      simp only [interestCountStep, h]
      rw [lookupCount_bumpCount]
      by_cases hc : cat = c0
      · subst hc
        simp [h]
        omega
      · simp only [if_neg hc]
        have hne : c0 ≠ cat := fun hx => hc hx.symm
        simp [h, hne]

theorem lookupCount_interestCounts (cat : String) (interests : List String) :
    lookupCount (interestCounts interests) cat =
      interests.countP
        (fun t => decide (firstKeywordCategory (strLower t) = some cat)) := by
  rw [interestCounts, lookupCount_interestCounts_aux]
  simp [lookupCount]

theorem lookupCount_hintStep_aux (pn cat c0 : String) :
    ∀ (hints : List String) (init : List (String × Nat)),
      lookupCount (hints.foldl (hintStep pn c0) init) cat =
        lookupCount init cat +
          (if cat = c0 then 2 * hints.countP (fun h => pySubstr h pn) else 0) := by
  intro hints
  induction hints with
  | nil => intro init; simp
  | cons h hs ih =>
    intro init
    rw [List.foldl_cons, ih, List.countP_cons]
    by_cases hsub : pySubstr h pn
    · simp only [hintStep, if_pos hsub]
      rw [lookupCount_bumpCount]
      by_cases hc : cat = c0 <;> simp [hc, hsub] <;> omega
    · simp only [hintStep, if_neg hsub]
      have : pySubstr h pn = false := by
        exact Bool.not_eq_true _ ▸ (by simpa using hsub)
      by_cases hc : cat = c0 <;> simp [hc, this]

theorem lookupCount_addNameHintCounts_aux (pn cat : String) :
    ∀ (tbl : List (String × List String)) (init : List (String × Nat)),
      lookupCount (tbl.foldl (hintEntryStep pn) init) cat =
        lookupCount init cat + 2 * hintTally tbl cat pn := by
  intro tbl
  induction tbl with
  | nil => intro init; simp [hintTally]
  | cons ch t ih =>
    intro init
    rw [List.foldl_cons, ih]
    show lookupCount (List.foldl (hintStep pn ch.1) init ch.2) cat + _ = _
    rw [lookupCount_hintStep_aux]
    simp only [hintTally, List.map_cons, List.sum_cons]
    by_cases hc : ch.1 = cat
    · rw [if_pos hc, if_pos hc.symm]
      omega
    · rw [if_neg hc, if_neg (fun h => hc h.symm)]
      omega

theorem lookupCount_detectCounts (p : Program) (cat : String) :
    lookupCount (detectCounts p) cat = claimedCount p cat := by
  rw [detectCounts, claimedCount]
  rw [addNameHintCounts, lookupCount_addNameHintCounts_aux]
  rw [lookupCount_interestCounts]

theorem firstMaxEntry_step_some (acc : Option (String × Nat)) (x : String × Nat) :
    ∃ e1, maxStep acc x = some e1 ∧
      x.2 ≤ e1.2 ∧ (∀ e0, acc = some e0 → e0.2 ≤ e1.2) := by
  cases acc with
  | none =>
    refine ⟨x, rfl, le_refl _, ?_⟩
    intro e0 h
    cases h
  | some best =>
    by_cases hgt : x.2 > best.2
    · refine ⟨x, by simp [maxStep, hgt], le_refl _, ?_⟩
      intro e0 h
      cases h
      omega
    · refine ⟨best, by simp [maxStep, hgt], by omega, ?_⟩
      intro e0 h
      cases h
      omega

theorem firstMaxEntry_spec :
    ∀ (l : List (String × Nat)) (acc : Option (String × Nat)) (res : String × Nat),
      List.foldl maxStep acc l = some res →
      (res ∈ l ∨ acc = some res) ∧ (∀ e ∈ l, e.2 ≤ res.2) ∧
        (∀ e0, acc = some e0 → e0.2 ≤ res.2) := by
  intro l
  induction l with
  | nil =>
    intro acc res h
    simp only [List.foldl_nil] at h
    refine ⟨Or.inr h, by simp, ?_⟩
    intro e0 h0
    rw [h] at h0
    cases h0
    exact le_refl _
  | cons x xs ih =>
    intro acc res h
    rw [List.foldl_cons] at h
    obtain ⟨e1, he1, hxe1, hacce1⟩ := firstMaxEntry_step_some acc x
    rw [he1] at h
    obtain ⟨hmem, hall, haccle⟩ := ih (some e1) res h
    have he1res : e1.2 ≤ res.2 := haccle e1 rfl
    refine ⟨?_, ?_, ?_⟩
    · rcases hmem with hmem | hmem
      · exact Or.inl (List.mem_cons_of_mem _ hmem)
      · -- some e1 = some res, and e1 is x or comes from acc
        have he1res' : e1 = res := Option.some.inj hmem
        cases acc with
        | none =>
          simp only [maxStep] at he1
          have hx : e1 = x := (Option.some.inj he1).symm
          exact Or.inl (by rw [← he1res', hx]; exact List.mem_cons_self x xs)
        | some best =>
          by_cases hgt : x.2 > best.2
          · have hx : e1 = x := by
              simp only [maxStep, if_pos hgt] at he1
              exact (Option.some.inj he1).symm
            exact Or.inl (by rw [← he1res', hx]; exact List.mem_cons_self x xs)
          · have : e1 = best := by
              simp only [maxStep, if_neg hgt] at he1
              exact (Option.some.inj he1).symm
            exact Or.inr (by rw [← he1res', this])
    · intro e he
      rcases List.mem_cons.mp he with rfl | he'
      · exact le_trans hxe1 he1res
      · exact hall e he'
    · intro e0 h0
      exact le_trans (hacce1 e0 h0) he1res

theorem mem_keys_bumpCount (c x : String) (n : Nat) :
    ∀ l, x ∈ (bumpCount c n l).map Prod.fst ↔
      x ∈ l.map Prod.fst ∨ x = c := by
  intro l
  induction l with
  | nil => simp [bumpCount]
  | cons e t ih =>
    obtain ⟨a, m⟩ := e
    by_cases hac : a = c
    · subst hac
      have hb : bumpCount a n ((a, m) :: t) = (a, m + n) :: t := by
        simp [bumpCount]
      rw [hb]
      simp only [List.map_cons, List.mem_cons]
      tauto
    · simp only [bumpCount, if_neg hac, List.map_cons, List.mem_cons, ih]
      tauto

theorem keys_nodup_bumpCount (c : String) (n : Nat) :
    ∀ l, ((l : List (String × Nat)).map Prod.fst).Nodup →
      ((bumpCount c n l).map Prod.fst).Nodup := by
  intro l
  induction l with
  | nil => intro _; simp [bumpCount]
  | cons e t ih =>
    obtain ⟨a, m⟩ := e
    intro h
    rw [List.map_cons, List.nodup_cons] at h
    by_cases hac : a = c
    · subst hac
      have hb : bumpCount a n ((a, m) :: t) = (a, m + n) :: t := by
        simp [bumpCount]
      rw [hb, List.map_cons, List.nodup_cons]
      exact h
    · simp only [bumpCount, if_neg hac, List.map_cons, List.nodup_cons]
      refine ⟨?_, ih h.2⟩
      rw [mem_keys_bumpCount]
      rintro (hmem | rfl)
      · exact h.1 hmem
      · exact hac rfl

theorem entries_pos_bumpCount (c : String) (n : Nat) (hn : 1 ≤ n) :
    ∀ l, (∀ e ∈ l, 1 ≤ (e : String × Nat).2) →
      ∀ e ∈ bumpCount c n l, 1 ≤ e.2 := by
  intro l
  induction l with
  | nil =>
    intro _ e he
    simp only [bumpCount, List.mem_singleton] at he
    subst he
    exact hn
  | cons x t ih =>
    obtain ⟨a, m⟩ := x
    intro h e he
    by_cases hac : a = c
    · subst hac
      have hb : bumpCount a n ((a, m) :: t) = (a, m + n) :: t := by
        simp [bumpCount]
      rw [hb, List.mem_cons] at he
      rcases he with rfl | he
      · simp
        omega
      · exact h e (List.mem_cons_of_mem _ he)
    · rw [show bumpCount c n ((a, m) :: t) = (a, m) :: bumpCount c n t by
        simp [bumpCount, hac], List.mem_cons] at he
      rcases he with rfl | he
      · exact h (a, m) (List.mem_cons_self _ _)
      · exact ih (fun e2 h2 => h e2 (List.mem_cons_of_mem _ h2)) e he

theorem detectCounts_invariant (p : Program) :
    ((detectCounts p).map Prod.fst).Nodup ∧
      ∀ e ∈ detectCounts p, 1 ≤ (e : String × Nat).2 := by
  have hstep1 : ∀ (l : List (String × Nat)) (t : String),
      ((l.map Prod.fst).Nodup ∧ ∀ e ∈ l, 1 ≤ (e : String × Nat).2) →
      (((interestCountStep l t).map Prod.fst).Nodup ∧
        ∀ e ∈ interestCountStep l t, 1 ≤ (e : String × Nat).2) := by
    intro l t h
    simp only [interestCountStep]
    cases firstKeywordCategory (strLower t) with
    | none => exact h
    | some c =>
      exact ⟨keys_nodup_bumpCount c 1 l h.1,
        entries_pos_bumpCount c 1 (le_refl 1) l h.2⟩
  have hstep2 : ∀ (pn : String) (l : List (String × Nat)) (ch : String × List String),
      ((l.map Prod.fst).Nodup ∧ ∀ e ∈ l, 1 ≤ (e : String × Nat).2) →
      (((hintEntryStep pn l ch).map Prod.fst).Nodup ∧
        ∀ e ∈ hintEntryStep pn l ch, 1 ≤ (e : String × Nat).2) := by
    intro pn l ch h
    simp only [hintEntryStep]
    exact foldl_preserves
      (fun l2 => ((l2.map Prod.fst).Nodup ∧ ∀ e ∈ l2, 1 ≤ (e : String × Nat).2))
      (hintStep pn ch.1)
      (by
        intro b a hb
        simp only [hintStep]
        split
        · exact ⟨keys_nodup_bumpCount ch.1 2 b hb.1,
            entries_pos_bumpCount ch.1 2 (by omega) b hb.2⟩
        · exact hb) ch.2 l h
  have h1 : (((interestCounts (match p.academic with
      | some ac => ac.interests.getD []
      | none => [])).map Prod.fst).Nodup ∧
      ∀ e ∈ interestCounts (match p.academic with
      | some ac => ac.interests.getD []
      | none => []), 1 ≤ (e : String × Nat).2) := by
    rw [interestCounts]
    exact foldl_preserves
      (fun l2 => ((l2.map Prod.fst).Nodup ∧ ∀ e ∈ l2, 1 ≤ (e : String × Nat).2))
      interestCountStep (fun b a hb => hstep1 b a hb) _ [] ⟨by simp, by simp⟩
  rw [detectCounts, addNameHintCounts]
  exact foldl_preserves
    (fun l2 => ((l2.map Prod.fst).Nodup ∧ ∀ e ∈ l2, 1 ≤ (e : String × Nat).2))
    (hintEntryStep (strLower (p.program.getD "")))
    (fun b a hb => hstep2 _ b a hb) name_hints _ h1

theorem lookupCount_of_mem_nodupKeys (c : String) (m : Nat) :
    ∀ l : List (String × Nat), ((l.map Prod.fst).Nodup) → (c, m) ∈ l →
      lookupCount l c = m := by
  intro l
  induction l with
  | nil => intro _ h; cases h
  | cons e t ih =>
    obtain ⟨a, v⟩ := e
    intro hnd hmem
    rw [List.map_cons, List.nodup_cons] at hnd
    rcases List.mem_cons.mp hmem with heq | hmem'
    · cases heq
      simp [lookupCount]
    · have hne : a ≠ c := by
        intro rfl2
        subst rfl2
        exact hnd.1 (List.mem_map.mpr ⟨(a, m), hmem', rfl⟩)
      simp only [lookupCount, if_neg hne]
      exact ih hnd.2 hmem'

theorem lookupCount_mem_of_ne_zero (c : String) :
    ∀ l : List (String × Nat), lookupCount l c ≠ 0 →
      (c, lookupCount l c) ∈ l := by
  intro l
  induction l with
  | nil => intro h; exact absurd rfl h
  | cons e t ih =>
    obtain ⟨a, v⟩ := e
    intro h
    by_cases hac : a = c
    · subst hac
      simp only [lookupCount, if_pos rfl] at h ⊢
      exact List.mem_cons_self _ _
    · simp only [lookupCount, if_neg hac] at h ⊢
      exact List.mem_cons_of_mem _ (ih h)

/-- Counterexample for claim C9: the entity with interest tags
`["programming", "robotics"]` and no program name gives CS/Math and
Engineering one count each; the code returns `CS/Math` (the category
whose first hit came first during the scan), while the claim's
table-order tie-break picks `Engineering`. -/
theorem detect_tie_break_counterexample :
    detect_program_type progC9 = some "CS/Math" ∧
      specDetectTableOrder progC9 = some "Engineering" ∧
      detect_program_type progC9 ≠ specDetectTableOrder progC9 :=
  ⟨by decide, by decide, by decide⟩

/-- Claim C9 (amended): the counts agree with the claimed formula — 1 per
interest tag whose first matching interest-table keyword maps to the
category plus 2 per program-name hint match — and the returned category
is one with a non-zero count that no other category exceeds; but the
tie-break is the order in which categories first scored during the scan
(CPython dict insertion order), not interest-table order. -/
theorem detect_counts_characterization (p : Program) (c : String)
    (h : detect_program_type p = some c) :
    (∀ cat, lookupCount (detectCounts p) cat = claimedCount p cat) ∧
      claimedCount p c ≠ 0 ∧
      (∀ cat, claimedCount p cat ≤ claimedCount p c) := by
  have hchar : ∀ cat, lookupCount (detectCounts p) cat = claimedCount p cat :=
    fun cat => lookupCount_detectCounts p cat
  have hdet : (firstMaxEntry (detectCounts p)).map (fun cn => cn.1) = some c := h
  obtain ⟨hnd, hpos⟩ := detectCounts_invariant p
  cases hfm : firstMaxEntry (detectCounts p) with
  | none => rw [hfm] at hdet; cases hdet
  | some cm =>
    obtain ⟨cc, m⟩ := cm
    rw [hfm] at hdet
    have hcc : cc = c := Option.some.inj hdet
    subst hcc
    obtain ⟨hmem, hall, _⟩ := firstMaxEntry_spec (detectCounts p) none (cc, m) hfm
    have hmem2 : (cc, m) ∈ detectCounts p := by
      rcases hmem with hmem | hmem
      · exact hmem
      · cases hmem
    have hlook : lookupCount (detectCounts p) cc = m :=
      lookupCount_of_mem_nodupKeys cc m _ hnd hmem2
    have hm1 : 1 ≤ m := hpos (cc, m) hmem2
    refine ⟨hchar, ?_, ?_⟩
    · rw [← hchar cc, hlook]
      omega
    · intro cat
      rw [← hchar cat, ← hchar cc, hlook]
      by_cases h0 : lookupCount (detectCounts p) cat = 0
      · omega
      · exact hall (cat, lookupCount (detectCounts p) cat)
          (lookupCount_mem_of_ne_zero cat _ h0)

/-- Witness for the amended claim C9 at the concrete two-tag entity. -/
theorem detect_counts_characterization_witness :
    (∀ cat, lookupCount (detectCounts progC9) cat = claimedCount progC9 cat) ∧
      claimedCount progC9 "CS/Math" ≠ 0 ∧
      (∀ cat, claimedCount progC9 cat ≤ claimedCount progC9 "CS/Math") :=
  detect_counts_characterization progC9 "CS/Math" (by decide)

/-! ### Claim C10: the two duplicated scoring engines agree -/

theorem normalize_string_empty : normalize_string "" = "" := by
  simp [normalize_string]

theorem set_norm_agree (o : Option String) :
    normalize_string (o.getD "") =
      (if o.getD "" ≠ "" then normalize_string (o.getD "") else "") := by
  by_cases h : o.getD "" = ""
  · rw [h, if_neg (by simp), normalize_string_empty]
  · rw [if_pos h]

theorem list_toFinset_map (l : List String) (f : String → String) :
    (l.map f).toFinset = l.toFinset.image f := by
  ext x
  simp [List.mem_toFinset, List.mem_map, Finset.mem_image]

theorem set_comp_eq (l : List String) (f : String → String) :
    (l.map f).toFinset =
      (if l.toFinset ≠ (∅ : Finset String) then l.toFinset.image f else ∅) := by
  rw [list_toFinset_map]
  split
  · rfl
  · next h =>
    rw [not_not.mp h]
    simp

theorem cps_normalized_agree (o : Option String) :
    (if o.getD "Medium" ≠ "" then pyCapitalize (o.getD "Medium") else "Medium") =
      (if (if o.getD "" ≠ "" then o.getD "" else "Medium") ≠ "" then
        pyCapitalize (if o.getD "" ≠ "" then o.getD "" else "Medium")
      else "Medium") := by
  cases o with
  | none => decide
  | some s =>
    by_cases hs : s = ""
    · subst hs
      decide
    · simp [hs]

theorem academic_cores_agree (d : ApiAnswers) (m : MmAnswers) (p : Program)
    (ac : AcademicRaw) (il : List String) (hc : answersCorrespond m d) :
    mm_academic_core p ac il m = api_academic_core (apiUnpack d) p ac il := by
  obtain ⟨hAA, hLC, hALT, hLS, hSP, hCO, hUR, hCR, hCE, hME, hCP, hNS, hCEV,
    hCSB, hSET, hHS, hCPS, hSPT, hCLB⟩ := hc
  simp only [mm_academic_core, api_academic_core, apiUnpack, mmUserVals,
    apiUserVals]
  rw [hAA, hLC, hALT, hLS, hSP, hCO, hUR, hCR, hCE, hME, hCP]

theorem campus_cores_agree (d : ApiAnswers) (m : MmAnswers) (base : CampusRaw)
    (hc : answersCorrespond m d) :
    mm_campus_core base m = api_campus_core (apiUnpack d) base := by
  obtain ⟨hAA, hLC, hALT, hLS, hSP, hCO, hUR, hCR, hCE, hME, hCP, hNS, hCEV,
    hCSB, hSET, hHS, hCPS, hSPT, hCLB⟩ := hc
  simp only [mm_campus_core, api_campus_core, apiUnpack]
  rw [hCSB, hSET, hHS, hCPS]
  rw [← set_norm_agree d.SET, set_comp_eq ((d.HS.getD [])) normalize_string,
    cps_normalized_agree d.CPS]

theorem social_cores_agree (d : ApiAnswers) (m : MmAnswers) (base : SocialRaw)
    (hc : answersCorrespond m d) :
    mm_social_core base m = api_social_core (apiUnpack d) base := by
  obtain ⟨hAA, hLC, hALT, hLS, hSP, hCO, hUR, hCR, hCE, hME, hCP, hNS, hCEV,
    hCSB, hSET, hHS, hCPS, hSPT, hCLB⟩ := hc
  simp only [mm_social_core, api_social_core, apiUnpack]
  rw [hNS, hCEV, hSPT, hCLB]
  rw [set_comp_eq ((d.SPT.getD [])) normalize_string,
    set_comp_eq ((d.CLB.getD [])) normalize_string]

theorem exceptBind_congr {α β : Type} {x : Except Err α}
    {f g : α → Except Err β} (h : ∀ a, f a = g a) : x >>= f = x >>= g := by
  cases x with
  | error e => rfl
  | ok a => exact h a

/-- Claim C10: the module-level facet scorers of `match_me.py` and the
nested facet scorers of `api.py`'s `compute_matches` compute equal scores
for every entity, whenever the two answer representations correspond
under the two calling conventions. -/
theorem duplicated_scoring_engines_agree (d : ApiAnswers) (m : MmAnswers)
    (p : Program) (hc : answersCorrespond m d) :
    mm_score_academic p m = api_score_academic (apiUnpack d) p ∧
      mm_score_campus p m = api_score_campus (apiUnpack d) p ∧
      mm_score_social p m = api_score_social (apiUnpack d) p := by
  refine ⟨?_, ?_, ?_⟩
  · unfold mm_score_academic api_score_academic
    refine exceptBind_congr (fun ac => ?_)
    refine exceptBind_congr (fun il => ?_)
    rw [academic_cores_agree d m p ac il hc]
  · unfold mm_score_campus api_score_campus
    refine exceptBind_congr (fun base => ?_)
    rw [campus_cores_agree d m base hc]
  · unfold mm_score_social api_score_social
    refine exceptBind_congr (fun base => ?_)
    rw [social_cores_agree d m base hc]

/-- Witness for claim C10 at the neutral fixtures, whose answer
representations correspond. -/
theorem duplicated_scoring_engines_agree_witness :
    mm_score_academic progNeutral mmNeutralAnswers =
        api_score_academic (apiUnpack apiUnitWeights) progNeutral ∧
      mm_score_campus progNeutral mmNeutralAnswers =
        api_score_campus (apiUnpack apiUnitWeights) progNeutral ∧
      mm_score_social progNeutral mmNeutralAnswers =
        api_score_social (apiUnpack apiUnitWeights) progNeutral :=
  duplicated_scoring_engines_agree apiUnitWeights mmNeutralAnswers progNeutral
    (by decide)

end UniMe
